import Mathlib

/-!
Verification of the libcerializer dynamic-message model and binary codec.

This file gives a shallow embedding of the C sources:

  * `src/cerializer.c`   — the primitive big-endian / IEEE-754 codec
    (`packi16/32/64`, `unpacki16/u16/i32/u32/i64/u64`, `pack754`, `unpack754`,
    `strslice`, the `serialize_* / deserialize_*` wrappers);
  * `src/dynmessage.c`   — the dynamic-message container
    (`dynmessage_init`, `dynmessage_put_field_and_value`, `update_field_value`,
    `dynmessage_get_field`, `dynmessage_get_fields`);
  * the framed codec (`calc_dynmessage_serialized_len`,
    `verify_dynmessage_start`, `get_encoded_dynmessage_length`,
    `verify_full_dynmessage`, `dynmessage_serialize_bin`,
    `dynmessage_deserialize_bin`).

Modelling conventions, stated once here and recalled next to each use:

  * Byte buffers are `List Nat`, one entry per `unsigned char`; a byte sequence
    produced by the C code always has entries `< 256`.  Reads past the end of a
    buffer are undefined behaviour in C; the model totalizes them as `0`
    (`List.getD _ _ 0`), and stores past the end of an allocation are dropped
    (`List.set` ignores out-of-range indices).
  * C strings are `List Nat` without the terminating NUL byte; `cstr` cuts a
    raw buffer at its first NUL, which is what `strdup`/`strlen`/`strcmp` see.
  * Machine integers are `Nat`/`Int` with the C conversions made explicit:
    `toUnsigned w x` is the conversion of a signed value to a `w`-bit unsigned
    type, and truncation into an `unsigned char` is `% 256`.
  * The `dyn_field_value` union is an inductive; reading a union member other
    than the one last stored reinterprets raw bytes in C (undefined across
    variants) and is modelled by the `as_*` projections returning a default on
    a mismatched variant.
  * `long double` arithmetic inside `pack754`/`unpack754` is modelled exactly
    over `ℚ`; for the inputs quantified over below the C computation performs
    the same exact arithmetic.
-/

/-! ### Byte-level helpers -/

/-- Conversion of a signed C value to a `w`-bit unsigned integer type:
reduction modulo `2 ^ w`. -/
def toUnsigned (w : Nat) (x : Int) : Nat := (x % ((2 : Int) ^ w)).toNat

/-! ### Primitive integer codec (`src/cerializer.c`)

`packi16/packi32/packi64` store an unsigned integer big-endian into the first
2/4/8 bytes of a buffer; each `*buf++ = i>>s` assignment truncates into an
`unsigned char`, i.e. `% 256`.  The widths of the C parameters
(`unsigned int` for `packi16`, `unsigned long` for `packi32`,
`unsigned long long` for `packi64`) matter only through the `toUnsigned`
conversion made by the caller. -/

/-- Store a 16-bit integer into a char buffer (big-endian), `packi16`. -/
def packi16 (i : Nat) : List Nat := [(i >>> 8) % 256, i % 256]

/-- Store a 32-bit integer into a char buffer (big-endian), `packi32`. -/
def packi32 (i : Nat) : List Nat :=
  [(i >>> 24) % 256, (i >>> 16) % 256, (i >>> 8) % 256, i % 256]

/-- Store a 64-bit integer into a char buffer (big-endian), `packi64`. -/
def packi64 (i : Nat) : List Nat :=
  [(i >>> 56) % 256, (i >>> 48) % 256, (i >>> 40) % 256, (i >>> 32) % 256,
   (i >>> 24) % 256, (i >>> 16) % 256, (i >>> 8) % 256, i % 256]

/-- Unpack a 16-bit unsigned integer from a char buffer, `unpacku16`.
Reading `buf[j]` past the end of the buffer is UB in C, totalized as `0`. -/
def unpacku16 (buf : List Nat) : Nat :=
  (buf.getD 0 0) <<< 8 ||| buf.getD 1 0

/-- Unpack a 16-bit signed integer from a char buffer, `unpacki16`:
the unsigned decode mapped back through two's complement. -/
def unpacki16 (buf : List Nat) : Int :=
  let i2 : Nat := (buf.getD 0 0) <<< 8 ||| buf.getD 1 0
  if i2 ≤ 0x7fff then (i2 : Int) else -1 - ((0xffff - i2 : Nat) : Int)

/-- Unpack a 32-bit unsigned integer from a char buffer, `unpacku32`. -/
def unpacku32 (buf : List Nat) : Nat :=
  (buf.getD 0 0) <<< 24 ||| (buf.getD 1 0) <<< 16 |||
  (buf.getD 2 0) <<< 8 ||| buf.getD 3 0

/-- Unpack a 32-bit signed integer from a char buffer, `unpacki32`. -/
def unpacki32 (buf : List Nat) : Int :=
  let i2 : Nat := (buf.getD 0 0) <<< 24 ||| (buf.getD 1 0) <<< 16 |||
    (buf.getD 2 0) <<< 8 ||| buf.getD 3 0
  if i2 ≤ 0x7fffffff then (i2 : Int) else -1 - ((0xffffffff - i2 : Nat) : Int)

/-- Unpack a 64-bit unsigned integer from a char buffer, `unpacku64`. -/
def unpacku64 (buf : List Nat) : Nat :=
  (buf.getD 0 0) <<< 56 ||| (buf.getD 1 0) <<< 48 |||
  (buf.getD 2 0) <<< 40 ||| (buf.getD 3 0) <<< 32 |||
  (buf.getD 4 0) <<< 24 ||| (buf.getD 5 0) <<< 16 |||
  (buf.getD 6 0) <<< 8 ||| buf.getD 7 0

/-- Unpack a 64-bit signed integer from a char buffer, `unpacki64`. -/
def unpacki64 (buf : List Nat) : Int :=
  let i2 : Nat := (buf.getD 0 0) <<< 56 ||| (buf.getD 1 0) <<< 48 |||
    (buf.getD 2 0) <<< 40 ||| (buf.getD 3 0) <<< 32 |||
    (buf.getD 4 0) <<< 24 ||| (buf.getD 5 0) <<< 16 |||
    (buf.getD 6 0) <<< 8 ||| buf.getD 7 0
  if i2 ≤ 0x7fffffffffffffff then (i2 : Int)
  else -1 - ((0xffffffffffffffff - i2 : Nat) : Int)

/-- Copy a slice of `n` bytes of `src` starting at `start_idx` (`strslice`).
Reads past the end of `src` are UB in C, totalized as `0`. -/
def strslice (src : List Nat) (start_idx n : Nat) : List Nat :=
  (List.range n).map (fun j => src.getD (start_idx + j) 0)

/-! ### IEEE-754 pack/unpack (`pack754` / `unpack754`)

The C routines compute in `long double`; the model computes exactly over `ℚ`.
For every input quantified over in the theorems below, every intermediate C
value is exactly representable, so the exact model agrees with the source. -/

/-- Normalization loop of `pack754`: `while (fnorm >= 2.0) { fnorm /= 2.0;
shift++; }`. -/
def normDown (fnorm : ℚ) (shift : ℤ) : ℚ × ℤ :=
  if h : 2 ≤ fnorm then normDown (fnorm / 2) (shift + 1) else (fnorm, shift)
termination_by ⌊fnorm⌋.toNat
decreasing_by
  have h2 : (2 : ℤ) ≤ ⌊fnorm⌋ := by
    have := Int.floor_le_floor (α := ℚ) h
    simpa using this
  have h3 : fnorm / 2 ≤ fnorm - 1 := by linarith
  have h4 : ⌊fnorm / 2⌋ ≤ ⌊fnorm - 1⌋ := Int.floor_le_floor h3
  have h5 : ⌊fnorm - 1⌋ = ⌊fnorm⌋ - 1 := by
    rw [show (1 : ℚ) = ((1 : ℤ) : ℚ) by norm_num, Int.floor_sub_int]
  omega

/-- Normalization loop of `pack754`: `while (fnorm < 1.0) { fnorm *= 2.0;
shift--; }`.  The source tests only `fnorm < 1.0`; with `fnorm ≤ 0` the C
loop would not terminate, but `pack754` only reaches it with `fnorm > 0`
(zero returns early and negative inputs are negated), so the inner
positivity test merely totalizes the model. -/
def normUp (fnorm : ℚ) (shift : ℤ) : ℚ × ℤ :=
  if h1 : fnorm < 1 then
    if h : 0 < fnorm then normUp (fnorm * 2) (shift - 1) else (fnorm, shift)
  else (fnorm, shift)
termination_by ⌊1 / fnorm⌋.toNat
decreasing_by
  have hx : (1 : ℚ) < 1 / fnorm := by
    rw [lt_div_iff₀ h]
    linarith
  have he : (1 : ℚ) / (fnorm * 2) = (1 / fnorm) / 2 := by
    ring
  rw [he]
  rcases le_or_lt 2 (1 / fnorm) with hc | hc
  · have h2 : (2 : ℤ) ≤ ⌊1 / fnorm⌋ := by
      have := Int.floor_le_floor (α := ℚ) hc
      simpa using this
    have h3 : (1 / fnorm) / 2 ≤ 1 / fnorm - 1 := by linarith
    have h4 : ⌊(1 / fnorm) / 2⌋ ≤ ⌊1 / fnorm - 1⌋ := Int.floor_le_floor h3
    have h5 : ⌊1 / fnorm - 1⌋ = ⌊1 / fnorm⌋ - 1 := by
      rw [show (1 : ℚ) = ((1 : ℤ) : ℚ) by norm_num, Int.floor_sub_int]
    omega
  · have h6 : ⌊1 / fnorm⌋ = 1 := by
      rw [Int.floor_eq_iff]
      constructor
      · push_cast
        linarith
      · push_cast
        linarith
    have h7 : ⌊(1 / fnorm) / 2⌋ < 1 := by
      rw [Int.floor_lt]
      push_cast
      linarith
    have h8 : (0 : ℤ) ≤ ⌊(1 / fnorm) / 2⌋ := by
      apply Int.floor_nonneg.mpr
      positivity
    omega

/-- Pack a floating point number into IEEE-754 format (`pack754`).
The significand assignment truncates a nonnegative `long double` product
into a `long long`, i.e. takes its floor; the three fields are nonnegative
for every normalized input, so the `long long` OR of the source is the
`Nat` OR of their `toNat` images. -/
def pack754 (f : ℚ) (bits expbits : Nat) : Nat :=
  let significandbits := bits - expbits - 1
  if f = 0 then 0
  else
    let sign : Nat := if f < 0 then 1 else 0
    let fnorm0 : ℚ := if f < 0 then -f else f
    let nd := normDown fnorm0 0
    let nu := normUp nd.1 nd.2
    let fnorm := nu.1 - 1
    let significand : ℤ := ⌊fnorm * ((2 ^ significandbits : ℚ) + 1 / 2)⌋
    let exp : ℤ := nu.2 + (2 ^ (expbits - 1) - 1)
    (sign <<< (bits - 1)) ||| (exp.toNat <<< (bits - expbits - 1)) ||| significand.toNat

/-- Exponent loop of `unpack754`: `while (shift > 0) { result *= 2.0;
shift--; }`. -/
def loopUp (st : ℚ × ℤ) : ℚ × ℤ :=
  if 0 < st.2 then loopUp (st.1 * 2, st.2 - 1) else st
termination_by st.2.toNat
decreasing_by
  simp_wf
  omega

/-- Exponent loop of `unpack754`: `while (shift < 0) { result /= 2.0;
shift++; }`. -/
def loopDown (st : ℚ × ℤ) : ℚ × ℤ :=
  if st.2 < 0 then loopDown (st.1 / 2, st.2 + 1) else st
termination_by (-st.2).toNat
decreasing_by
  simp_wf
  omega

/-- Unpack a floating point number from IEEE-754 format (`unpack754`). -/
def unpack754 (i : Nat) (bits expbits : Nat) : ℚ :=
  let significandbits := bits - expbits - 1
  if i = 0 then 0
  else
    let result : ℚ := ((i &&& (2 ^ significandbits - 1) : Nat) : ℚ)
    let result := result / ((2 ^ significandbits : Nat) : ℚ)
    let result := result + 1
    let bias : ℤ := 2 ^ (expbits - 1) - 1
    let shift : ℤ := (((i >>> significandbits) &&& (2 ^ expbits - 1) : Nat) : ℤ) - bias
    let st := loopDown (loopUp (result, shift))
    st.1 * (if (i >>> (bits - 1)) &&& 1 = 1 then -1 else 1)

/-- Macro `pack754_32(f)`. -/
def pack754_32 (f : ℚ) : Nat := pack754 f 32 8

/-- Macro `pack754_64(f)`. -/
def pack754_64 (f : ℚ) : Nat := pack754 f 64 11

/-- Macro `unpack754_32(i)`. -/
def unpack754_32 (i : Nat) : ℚ := unpack754 i 32 8

/-- Macro `unpack754_64(i)`. -/
def unpack754_64 (i : Nat) : ℚ := unpack754 i 64 11

/-! ### The `serialize_* / deserialize_*` wrappers of `src/cerializer.c`

Each `serialize_*` C function writes bytes at the buffer cursor; the model
returns the bytes written, and the framed codec stores them with
`writeBytes`. -/

/-- Serialize a 16-bit integer (`serialize_int16`). -/
def serialize_int16 (i : Nat) : List Nat := packi16 i

/-- De-serialize a 16-bit integer (`deserialize_int16`). -/
def deserialize_int16 (buf : List Nat) : Int := unpacki16 buf

/-- De-serialize a 16-bit unsigned integer (`deserialize_uint16`). -/
def deserialize_uint16 (buf : List Nat) : Nat := unpacku16 buf

/-- Serialize a 32-bit integer (`serialize_int32`). -/
def serialize_int32 (i : Nat) : List Nat := packi32 i

/-- De-serialize a 32-bit integer (`deserialize_int32`). -/
def deserialize_int32 (buf : List Nat) : Int := unpacki32 buf

/-- De-serialize a 32-bit unsigned integer (`deserialize_uint32`). -/
def deserialize_uint32 (buf : List Nat) : Nat := unpacku32 buf

/-- Serialize a 64-bit integer (`serialize_int64`). -/
def serialize_int64 (i : Nat) : List Nat := packi64 i

/-- De-serialize a 64-bit integer (`deserialize_int64`). -/
def deserialize_int64 (buf : List Nat) : Int := unpacki64 buf

/-- De-serialize a 64-bit unsigned integer (`deserialize_uint64`). -/
def deserialize_uint64 (buf : List Nat) : Nat := unpacku64 buf

/-- Serialize a 32-bit float (`serialize_float32`): convert to IEEE-754 and
pack the low 32 bits. -/
def serialize_float32 (f : ℚ) : List Nat := packi32 (pack754_32 f)

/-- De-serialize a 32-bit float (`deserialize_float32`).  The C function
narrows its `long double` result into the caller's `float`; for bit patterns
of binary32 values the narrowing is exact. -/
def deserialize_float32 (buf : List Nat) : ℚ := unpack754_32 (unpacku32 buf)

/-- Serialize a 64-bit float (`serialize_float64`). -/
def serialize_float64 (f : ℚ) : List Nat := packi64 (pack754_64 f)

/-- De-serialize a 64-bit float (`deserialize_float64`). -/
def deserialize_float64 (buf : List Nat) : ℚ := unpack754_64 (unpacku64 buf)

/-! ### C strings -/

/-- Content of a raw byte buffer read as a C string: the bytes before the
first NUL.  `strdup` copies exactly these bytes and `strcmp` compares them. -/
def cstr (l : List Nat) : List Nat := l.takeWhile (fun b => b ≠ 0)

/-- Byte length of a buffer read as a C string (`strlen`). -/
def strlen (l : List Nat) : Nat := (cstr l).length

/-! ### Dynamic message container (`src/dynmessage.h`, `src/dynmessage.c`)

The `dyn_field_type` enumeration is a C `int`-valued enum; the model keeps
the tags as `Int` constants so that the decoder can carry a tag read from
the wire that lies outside the enumeration, exactly as the C code does. -/

/-- Number of entries of the type enumeration (`DYN_FIELD_TYPE_LEN`). -/
def DYN_FIELD_TYPE_LEN : Nat := 13

/-- Ordinal of `ENUMERATION_TYPE`. -/
def ENUMERATION_TYPE : Int := 0

/-- Ordinal of `INT8_TYPE`. -/
def INT8_TYPE : Int := 1

/-- Ordinal of `UNSIGNED_INT8_TYPE`. -/
def UNSIGNED_INT8_TYPE : Int := 2

/-- Ordinal of `INT16_TYPE`. -/
def INT16_TYPE : Int := 3

/-- Ordinal of `UNSIGNED_INT16_TYPE`. -/
def UNSIGNED_INT16_TYPE : Int := 4

/-- Ordinal of `INT32_TYPE`. -/
def INT32_TYPE : Int := 5

/-- Ordinal of `UNSIGNED_INT32_TYPE`. -/
def UNSIGNED_INT32_TYPE : Int := 6

/-- Ordinal of `INT64_TYPE`. -/
def INT64_TYPE : Int := 7

/-- Ordinal of `UNSIGNED_INT64_TYPE`. -/
def UNSIGNED_INT64_TYPE : Int := 8

/-- Ordinal of `FLOAT32_TYPE`. -/
def FLOAT32_TYPE : Int := 9

/-- Ordinal of `FLOAT64_TYPE`. -/
def FLOAT64_TYPE : Int := 10

/-- Ordinal of `STRING_TYPE`. -/
def STRING_TYPE : Int := 11

/-- Ordinal of `NO_TYPE`. -/
def NO_TYPE : Int := 12

/-- The `dyn_field_value` union.  Exactly one member is inhabited at a time;
the C storage types are: `unsigned int` (enum), `char`/`unsigned char`
(8-bit), `int`/`unsigned int` (16-bit), `long`/`unsigned long` (32-bit),
`long long`/`unsigned long long` (64-bit), `float`/`double`, `char *`. -/
inductive dyn_field_value where
  | enum_value (v : Nat)
  | int8_value (v : Int)
  | uint8_value (v : Nat)
  | int16_value (v : Int)
  | uint16_value (v : Nat)
  | int32_value (v : Int)
  | uint32_value (v : Nat)
  | int64_value (v : Int)
  | uint64_value (v : Nat)
  | float32_value (v : ℚ)
  | float64_value (v : ℚ)
  | string_value (s : List Nat)
deriving DecidableEq, Repr

/-! Union member reads.  Reading a member other than the last one stored
reinterprets raw bytes in C (undefined across variants); the model returns a
fixed default in that case.  Every theorem below only reads the member that
was stored. -/

/-- Read the `enum_value` member. -/
def dyn_field_value.as_enum : dyn_field_value → Nat
  | .enum_value v => v
  | _ => 0

/-- Read the `int8_value` member. -/
def dyn_field_value.as_int8 : dyn_field_value → Int
  | .int8_value v => v
  | _ => 0

/-- Read the `uint8_value` member. -/
def dyn_field_value.as_uint8 : dyn_field_value → Nat
  | .uint8_value v => v
  | _ => 0

/-- Read the `int16_value` member. -/
def dyn_field_value.as_int16 : dyn_field_value → Int
  | .int16_value v => v
  | _ => 0

/-- Read the `uint16_value` member. -/
def dyn_field_value.as_uint16 : dyn_field_value → Nat
  | .uint16_value v => v
  | _ => 0

/-- Read the `int32_value` member. -/
def dyn_field_value.as_int32 : dyn_field_value → Int
  | .int32_value v => v
  | _ => 0

/-- Read the `uint32_value` member. -/
def dyn_field_value.as_uint32 : dyn_field_value → Nat
  | .uint32_value v => v
  | _ => 0

/-- Read the `int64_value` member. -/
def dyn_field_value.as_int64 : dyn_field_value → Int
  | .int64_value v => v
  | _ => 0

/-- Read the `uint64_value` member. -/
def dyn_field_value.as_uint64 : dyn_field_value → Nat
  | .uint64_value v => v
  | _ => 0

/-- Read the `float32_value` member. -/
def dyn_field_value.as_float32 : dyn_field_value → ℚ
  | .float32_value v => v
  | _ => 0

/-- Read the `float64_value` member. -/
def dyn_field_value.as_float64 : dyn_field_value → ℚ
  | .float64_value v => v
  | _ => 0

/-- Read the `string_value` member. -/
def dyn_field_value.as_string : dyn_field_value → List Nat
  | .string_value s => s
  | _ => []

/-- A dynamic message field (`dyn_field`): owned name, type tag, optional
value (a null `value` pointer is `none`), 1-based sequence index. -/
structure dyn_field where
  name : List Nat
  type : Int
  value : Option dyn_field_value
  seq : Int
deriving DecidableEq, Repr

/-- A dynamic message (`dynamicmessage`): owned name, the field collection
(`fields_info`, a hash map keyed by the field's own name), and the field
count.  The C hash map is modelled as the list of its entries, newest first
(`hashmap_put` prepends new entries to a bucket); every observable operation
below is insensitive to the enumeration order, because fields are addressed
by name or by `seq`. -/
structure dynamicmessage where
  name : List Nat
  fields_info : List dyn_field
  field_count : Int
deriving DecidableEq, Repr

/-- Key membership in the field map (`hashmap_contains_key` with
`test_string_equal`, i.e. `strcmp`): the stored keys are NUL-free copies, and
the probe key is read as a C string. -/
def hashmap_contains_key (fields : List dyn_field) (name : List Nat) : Bool :=
  fields.any (fun f => f.name = cstr name)

/-- Value lookup in the field map (`hashmap_get`). -/
def hashmap_get (fields : List dyn_field) (name : List Nat) : Option dyn_field :=
  fields.find? (fun f => f.name = cstr name)

/-- The switch of `update_field_value`: store the caller's value into the
union member selected by the field's stored type.  The `STRING_TYPE` case
`strdup`s the caller's bytes (up to the NUL).  `NO_TYPE` stores nothing: the
union keeps its previous bytes (or the indeterminate bytes of a fresh
`malloc`, modelled as an `enum_value 0`); the same happens for any tag
without a case, since the switch has no default.  In a reachable message the
stored type is always one of the first twelve tags. -/
def updated_value (t : Int) (old : Option dyn_field_value)
    (v : dyn_field_value) : dyn_field_value :=
  if t = ENUMERATION_TYPE then .enum_value v.as_enum
  else if t = INT8_TYPE then .int8_value v.as_int8
  else if t = UNSIGNED_INT8_TYPE then .uint8_value v.as_uint8
  else if t = INT16_TYPE then .int16_value v.as_int16
  else if t = UNSIGNED_INT16_TYPE then .uint16_value v.as_uint16
  else if t = INT32_TYPE then .int32_value v.as_int32
  else if t = UNSIGNED_INT32_TYPE then .uint32_value v.as_uint32
  else if t = INT64_TYPE then .int64_value v.as_int64
  else if t = UNSIGNED_INT64_TYPE then .uint64_value v.as_uint64
  else if t = FLOAT32_TYPE then .float32_value v.as_float32
  else if t = FLOAT64_TYPE then .float64_value v.as_float64
  else if t = STRING_TYPE then .string_value (cstr v.as_string)
  else old.getD (.enum_value 0)

/-- Replace the value of the (unique) field named `name` in the entry list;
`update_field_value` reaches exactly one entry through `hashmap_get`. -/
def update_field_in (name : List Nat) (v : dyn_field_value) :
    List dyn_field → List dyn_field
  | [] => []
  | f :: rest =>
    if f.name = cstr name then
      { f with value := some (updated_value f.type f.value v) } :: rest
    else f :: update_field_in name v rest

/-- Update the value of an existing field (`update_field_value`).  The C
function dereferences `hashmap_get`'s result without a null check; its only
caller guarantees the field is present, and when it is absent the model
leaves the message unchanged.  The final `hashmap_put` re-inserts the same
field pointer under the existing key and changes nothing. -/
def update_field_value (message : dynamicmessage) (name : List Nat)
    (v : dyn_field_value) : dynamicmessage :=
  { message with fields_info := update_field_in name v message.fields_info }

/-- Create and initialize a dynamic message
(`dynmessage_create` + `dynmessage_init`): the name is `strdup`ed, the field
map starts empty, `field_count = 0`. -/
def dynmessage_init (name : List Nat) : dynamicmessage :=
  { name := cstr name, fields_info := [], field_count := 0 }

/-- Add or update a field (`dynmessage_put_field_and_value`).  A null
`value` pointer is a silent no-op (the sanity check at the top), as is a
type outside `ENUMERATION_TYPE..STRING_TYPE`.  A new field is appended with
the next `seq` and a null value, then `update_field_value` stores the value;
an existing field only has its value replaced, under its stored type. -/
def dynmessage_put_field_and_value (message : dynamicmessage) (name : List Nat)
    (type : Int) (value : Option dyn_field_value) : dynamicmessage :=
  match value with
  | none => message
  | some v =>
    if type < ENUMERATION_TYPE ∨ STRING_TYPE < type then message
    else
      let message1 :=
        if hashmap_contains_key message.fields_info name then message
        else
          { message with
            fields_info :=
              { name := cstr name, type := type, value := none,
                seq := message.field_count + 1 } :: message.fields_info,
            field_count := message.field_count + 1 }
      update_field_value message1 name v

/-- Macro `dynmessage_put_field(message, name, type)`: a put with a null
value pointer. -/
def dynmessage_put_field (message : dynamicmessage) (name : List Nat)
    (type : Int) : dynamicmessage :=
  dynmessage_put_field_and_value message name type none

/-- Look a field up by name (`dynmessage_get_field`): the output is filled
with the field's data on success and with the sentinel
`(NULL, NO_TYPE, NULL, -1)` otherwise (the null name is modelled as `[]`).
The C code fills `out.name` with the caller's `name` pointer. -/
def dynmessage_get_field (message : dynamicmessage) (name : List Nat) :
    dyn_field :=
  match hashmap_get message.fields_info name with
  | some f => { name := name, type := f.type, value := f.value, seq := f.seq }
  | none => { name := [], type := NO_TYPE, value := none, seq := -1 }

/-- Snapshot of all fields (`dynmessage_get_fields`): an array of
`field_count` slots, filled by walking the hash-map keys and writing each
field at index `seq - 1`.  A slot the walk never writes keeps the
indeterminate contents of its fresh allocation, modelled as `none`; a
negative `seq` would index out of bounds (UB), modelled by `Int.toNat`
clamping.  An uninitialized or empty message yields an empty snapshot;
`list_length` is the length of the returned list. -/
def dynmessage_get_fields (message : dynamicmessage) : List (Option dyn_field) :=
  if 0 < message.field_count then
    (message.fields_info.map (fun f => f.name)).foldl
      (fun temp_array name =>
        let field := dynmessage_get_field message name
        temp_array.set (field.seq - 1).toNat (some field))
      (List.replicate message.field_count.toNat none)
  else []

/-! ### Framed message codec (the `dynmessage_cerializer` translation unit) -/

/-- Macro `DYN_MESSAGE_FIXED_LEN`. -/
def DYN_MESSAGE_FIXED_LEN : Int := 16

/-- Macro `DYN_FIELD_FIXED_LEN`. -/
def DYN_FIELD_FIXED_LEN : Int := 16

/-- Macro `DYN_MSG_MIN_LEN`. -/
def DYN_MSG_MIN_LEN : Int := 32

/-- Macro `DYN_MSG_START`, the frame magic `0x3E3E3E3D`. -/
def DYN_MSG_START : Int := 1044266557

/-- The per-type serialized value sizes `DYN_FIELD_TYPE_SER_SIZE`.  The
source declares the array with `DYN_FIELD_TYPE_LEN = 13` entries but lists
only eleven initializers, whose comments name the eleven members of an older
revision of the enumeration without the 8-bit types; C zero-initializes the
two remaining slots.  Indexed by the current 13-member enumeration this
yields `ENUMERATION ↦ 4, INT8 ↦ 2, UINT8 ↦ 2, INT16 ↦ 4, UINT16 ↦ 4,
INT32 ↦ 8, UINT32 ↦ 8, INT64 ↦ 4, UINT64 ↦ 8, FLOAT32 ↦ 0, FLOAT64 ↦ 0,
STRING ↦ 0, NO_TYPE ↦ 0`. -/
def DYN_FIELD_TYPE_SER_SIZE : List Nat :=
  [4, 2, 2, 4, 4, 8, 8, 4, 8, 0, 0] ++ List.replicate (DYN_FIELD_TYPE_LEN - 11) 0

/-- Length in bytes of a serialized dynamic message
(`calc_dynmessage_serialized_len`).  An uninitialized snapshot slot (`none`)
would be an indeterminate pointer in C; it contributes nothing here and is
unreachable for messages built by the public operations. -/
def calc_dynmessage_serialized_len (message : dynamicmessage) : Int :=
  let field_list := dynmessage_get_fields message
  if 0 < field_list.length then
    field_list.foldl
      (fun result fo =>
        match fo with
        | some field =>
          let field_length : Int := DYN_FIELD_FIXED_LEN + (strlen field.name : Int) +
            ((DYN_FIELD_TYPE_SER_SIZE.getD field.type.toNat 0 : Nat) : Int)
          let field_length :=
            if field.type = STRING_TYPE then
              field_length +
                ((strlen ((field.value.getD (.enum_value 0)).as_string) : Nat) : Int)
            else field_length
          result + field_length
        | none => result)
      (DYN_MESSAGE_FIXED_LEN + (strlen message.name : Int))
  else 0

/-- Check that a byte sequence starts with the frame magic
(`verify_dynmessage_start`): at least 4 bytes, decoding as
`DYN_MSG_START`. -/
def verify_dynmessage_start (data : List Nat) : Bool :=
  decide (4 ≤ data.length) && decide (deserialize_int32 data = DYN_MSG_START)

/-- Decode the total-length header of a frame
(`get_encoded_dynmessage_length`): bytes 4..8 when at least 8 bytes are
present, `0` otherwise. -/
def get_encoded_dynmessage_length (data : List Nat) : Int :=
  if 8 ≤ data.length then deserialize_int32 (strslice data 4 4) else 0

/-- Check that a byte sequence contains a full serialized message
(`verify_full_dynmessage`): the magic is present and the declared total
length does not exceed the physical length. -/
def verify_full_dynmessage (data : List Nat) : Bool :=
  verify_dynmessage_start data &&
    decide (get_encoded_dynmessage_length data ≤ (data.length : Int))

/-- Write a run of bytes into the output buffer starting at `pos`
(`memcpy` / the `serialize_*` stores).  Stores past the end of the
allocation are UB in C (`List.set` drops them). -/
def writeBytes (buf : List Nat) (pos : Nat) : List Nat → List Nat
  | [] => buf
  | b :: rest => writeBytes (buf.set pos b) (pos + 1) rest

/-- The value bytes the serializer's switch writes for one field.  The
switch has no cases for `INT8_TYPE`/`UNSIGNED_INT8_TYPE` and writes nothing
for them, nor for `NO_TYPE`.  A null `value` pointer would be dereferenced
in C (unreachable for reachable messages); the model reads a default. -/
def serialize_field_value_bytes (field : dyn_field) : List Nat :=
  let v := field.value.getD (.enum_value 0)
  if field.type = ENUMERATION_TYPE then serialize_int32 v.as_enum
  else if field.type = INT16_TYPE then serialize_int16 (toUnsigned 32 v.as_int16)
  else if field.type = UNSIGNED_INT16_TYPE then serialize_int16 v.as_uint16
  else if field.type = INT32_TYPE then serialize_int32 (toUnsigned 64 v.as_int32)
  else if field.type = UNSIGNED_INT32_TYPE then serialize_int32 v.as_uint32
  else if field.type = INT64_TYPE then serialize_int64 (toUnsigned 64 v.as_int64)
  else if field.type = UNSIGNED_INT64_TYPE then serialize_int64 v.as_uint64
  else if field.type = FLOAT32_TYPE then serialize_float32 v.as_float32
  else if field.type = FLOAT64_TYPE then serialize_float64 v.as_float64
  else if field.type = STRING_TYPE then cstr v.as_string
  else []

/-- Serialize one field sub-frame (the body of the field loop of
`dynmessage_serialize_bin`).  Note that the cursor advances past the value
by `value_size` from the size table, not by the number of bytes the switch
actually wrote. -/
def serialize_one_field (st : List Nat × Nat) (field : dyn_field) :
    List Nat × Nat :=
  let data := st.1
  let pos := st.2
  let vs0 := DYN_FIELD_TYPE_SER_SIZE.getD field.type.toNat 0
  let value_size :=
    if field.type = STRING_TYPE then
      strlen ((field.value.getD (.enum_value 0)).as_string)
    else vs0
  let len := (DYN_FIELD_FIXED_LEN.toNat + strlen field.name + value_size)
  let data := writeBytes data pos (serialize_int32 len)
  let pos := pos + 4
  let len := strlen field.name
  let data := writeBytes data pos (serialize_int32 len)
  let pos := pos + 4
  let data := writeBytes data pos (field.name.take len)
  let pos := pos + len
  let data := writeBytes data pos (serialize_int32 (toUnsigned 64 field.type))
  let pos := pos + 4
  let data := writeBytes data pos (serialize_int32 value_size)
  let pos := pos + 4
  let data := writeBytes data pos (serialize_field_value_bytes field)
  (data, pos + value_size)

/-- Serialize a dynamic message into a byte frame
(`dynmessage_serialize_bin`).  When the computed length is not above
`DYN_MSG_MIN_LEN` nothing is emitted and the `serialized_data_info` carrier
is left unset (`none`); otherwise the result models
`(serdi.ser_data, serdi.ser_data_len = result.length)`.  The `malloc`ed
output buffer has indeterminate contents, modelled as zero bytes. -/
def dynmessage_serialize_bin (message : dynamicmessage) : Option (List Nat) :=
  let message_length := calc_dynmessage_serialized_len message
  if DYN_MSG_MIN_LEN < message_length then
    let data := List.replicate message_length.toNat 0
    let pos := 0
    let data := writeBytes data pos (serialize_int32 (toUnsigned 64 DYN_MSG_START))
    let pos := pos + 4
    let data := writeBytes data pos (serialize_int32 (toUnsigned 64 message_length))
    let pos := pos + 4
    let len := strlen message.name
    let data := writeBytes data pos (serialize_int32 len)
    let pos := pos + 4
    let data := writeBytes data pos (message.name.take len)
    let pos := pos + len
    let data := writeBytes data pos (serialize_int32 (toUnsigned 64 message.field_count))
    let pos := pos + 4
    let field_list := dynmessage_get_fields message
    let st := field_list.foldl
      (fun st fo =>
        match fo with
        | some field => serialize_one_field st field
        | none => st)
      (data, pos)
    some st.1
  else none

/-- De-serialize one field sub-frame (the body of the field loop of
`dynmessage_deserialize_bin`).  Negative decoded lengths would wrap through
`size_t` in C (UB on the subsequent reads); the model clamps them with
`Int.toNat`.  The `dynmessage_put_field` call passes a null value pointer;
the typed `dynmessage_put_*_field_value` macros pass a pointer to a stack
variable holding the decoded scalar, modelled by the matching union variant
(for `ENUMERATION_TYPE` the stack variable is an `int` read back through the
`unsigned int` member, hence `toUnsigned 32`).  Tags without a case in the
switch (`INT8`, `UINT8`, `NO_TYPE`, unknown ordinals) store nothing. -/
def deserialize_one_field (data : List Nat) (st : dynamicmessage × Nat) :
    dynamicmessage × Nat :=
  let dyn_message := st.1
  let start_idx := st.2
  let _field_length := deserialize_int32 (strslice data start_idx 4)
  let start_idx := start_idx + 4
  let len := (deserialize_int32 (strslice data start_idx 4)).toNat
  let start_idx := start_idx + 4
  let field_name := strslice data start_idx len
  let start_idx := start_idx + len
  let field_type := deserialize_int32 (strslice data start_idx 4)
  let start_idx := start_idx + 4
  let len := (deserialize_int32 (strslice data start_idx 4)).toNat
  let dyn_message := dynmessage_put_field dyn_message field_name field_type
  let start_idx := start_idx + 4
  let field_value_buffer := strslice data start_idx len
  let dyn_message :=
    if field_type = ENUMERATION_TYPE then
      dynmessage_put_field_and_value dyn_message field_name ENUMERATION_TYPE
        (some (.enum_value (toUnsigned 32 (deserialize_int32 field_value_buffer))))
    else if field_type = INT16_TYPE then
      dynmessage_put_field_and_value dyn_message field_name INT16_TYPE
        (some (.int16_value (deserialize_int16 field_value_buffer)))
    else if field_type = UNSIGNED_INT16_TYPE then
      dynmessage_put_field_and_value dyn_message field_name UNSIGNED_INT16_TYPE
        (some (.uint16_value (deserialize_uint16 field_value_buffer)))
    else if field_type = INT32_TYPE then
      dynmessage_put_field_and_value dyn_message field_name INT32_TYPE
        (some (.int32_value (deserialize_int32 field_value_buffer)))
    else if field_type = UNSIGNED_INT32_TYPE then
      dynmessage_put_field_and_value dyn_message field_name UNSIGNED_INT32_TYPE
        (some (.uint32_value (deserialize_uint32 field_value_buffer)))
    else if field_type = INT64_TYPE then
      dynmessage_put_field_and_value dyn_message field_name INT64_TYPE
        (some (.int64_value (deserialize_int64 field_value_buffer)))
    else if field_type = UNSIGNED_INT64_TYPE then
      dynmessage_put_field_and_value dyn_message field_name UNSIGNED_INT64_TYPE
        (some (.uint64_value (deserialize_uint64 field_value_buffer)))
    else if field_type = FLOAT32_TYPE then
      dynmessage_put_field_and_value dyn_message field_name FLOAT32_TYPE
        (some (.float32_value (deserialize_float32 field_value_buffer)))
    else if field_type = FLOAT64_TYPE then
      dynmessage_put_field_and_value dyn_message field_name FLOAT64_TYPE
        (some (.float64_value (deserialize_float64 field_value_buffer)))
    else if field_type = STRING_TYPE then
      dynmessage_put_field_and_value dyn_message field_name STRING_TYPE
        (some (.string_value (strslice field_value_buffer 0 len)))
    else dyn_message
  (dyn_message, start_idx + len)

/-- De-serialize a byte frame into a dynamic message
(`dynmessage_deserialize_bin`).  A frame that fails `verify_full_dynmessage`
yields a null pointer (`none`).  A frame that declares no fields is logged
and the freshly initialized message is still returned. -/
def dynmessage_deserialize_bin (data : List Nat) : Option dynamicmessage :=
  if verify_full_dynmessage data then
    let start_idx := 8
    let len := (deserialize_int32 (strslice data start_idx 4)).toNat
    let start_idx := start_idx + 4
    let message_name := strslice data start_idx len
    let dyn_message := dynmessage_init message_name
    let start_idx := start_idx + len
    let field_count := deserialize_int32 (strslice data start_idx 4)
    let start_idx := start_idx + 4
    if 0 < field_count then
      some ((List.range field_count.toNat).foldl
        (fun st _ => deserialize_one_field data st) (dyn_message, start_idx)).1
    else some dyn_message
  else none


/-- The write one key contributes to the `dynmessage_get_fields` snapshot
(the body of its key loop, named for the proofs below). -/
def get_fields_write (message : dynamicmessage)
    (temp_array : List (Option dyn_field)) (name : List Nat) :
    List (Option dyn_field) :=
  let field := dynmessage_get_field message name
  temp_array.set (field.seq - 1).toNat (some field)

/-! ### Reachable messages and the container invariant -/

/-- Messages reachable by the public operations: created and initialized
empty, then grown by `dynmessage_put_field_and_value` (the read-only
operations do not change the message, and `free`/`destroy` end its life). -/
inductive Reachable : dynamicmessage → Prop where
  | init (name : List Nat) : Reachable (dynmessage_init name)
  | put (m : dynamicmessage) (name : List Nat) (t : Int)
      (v : Option dyn_field_value) (h : Reachable m) :
      Reachable (dynmessage_put_field_and_value m name t v)

/-- The `seq` values of the field entries, newest entry first:
`[n, n-1, ..., 1]`. -/
def seqListDesc (n : Nat) : List Int :=
  (List.range n).reverse.map (fun k : Nat => (k : Int) + 1)

/-- Structural invariant of the container: `field_count` matches the number
of entries, every stored field has a NUL-free name, a type tag strictly
inside `ENUMERATION_TYPE..STRING_TYPE` and a set value, names are unique,
and the `seq` values run down from `field_count` to `1` in entry order. -/
def msgInv (m : dynamicmessage) : Prop :=
  m.field_count = (m.fields_info.length : Int) ∧
  (∀ f ∈ m.fields_info,
    (0 : Nat) ∉ f.name ∧ ENUMERATION_TYPE ≤ f.type ∧ f.type ≤ STRING_TYPE ∧
      f.value ≠ none) ∧
  (m.fields_info.map (fun f => f.name)).Nodup ∧
  m.fields_info.map (fun f => f.seq) = seqListDesc m.fields_info.length

/-! ### Concrete messages used to evaluate the codec -/

/-- A message named `"m"` (byte `109`) with one `INT16_TYPE` field `"f"`
(byte `102`) of value `1`. -/
def msg_i16_example : dynamicmessage :=
  dynmessage_put_field_and_value (dynmessage_init [109]) [102] INT16_TYPE
    (some (.int16_value 1))

/-- A message named `"m"` with one `INT64_TYPE` field `"f"` of value `1`. -/
def msg_i64_example : dynamicmessage :=
  dynmessage_put_field_and_value (dynmessage_init [109]) [102] INT64_TYPE
    (some (.int64_value 1))

/-- A message named `"m"` with one `INT32_TYPE` field `"f"` of value `7`. -/
def msg_i32_example : dynamicmessage :=
  dynmessage_put_field_and_value (dynmessage_init [109]) [102] INT32_TYPE
    (some (.int32_value 7))

/-! ## Theorems -/

/-- Big-endian composition: a field shifted left `k` bits or-ed with a value
below `2 ^ k` is plain addition of disjoint bit ranges. -/
theorem shiftLeft_lor_eq_add (a b k : Nat) (hb : b < 2 ^ k) :
    (a <<< k) ||| b = a * 2 ^ k + b := by
  apply Nat.eq_of_testBit_eq
  intro i
  rw [Nat.testBit_lor, Nat.testBit_shiftLeft]
  rcases lt_or_ge i k with h | h
  · have hki : ¬ (i ≥ k) := by omega
    rw [decide_eq_false hki, Bool.false_and, Bool.false_or]
    rw [Nat.testBit_to_div_mod, Nat.testBit_to_div_mod]
    have hdvd : (2 : Nat) ^ i ∣ a * 2 ^ k := by
      exact Dvd.dvd.mul_left (pow_dvd_pow 2 (by omega)) a
    rw [Nat.add_div_of_dvd_right hdvd]
    have hsplit : a * 2 ^ k / 2 ^ i = a * 2 ^ (k - i - 1) * 2 := by
      have hk : (2 : Nat) ^ k = 2 ^ i * (2 ^ (k - i - 1) * 2) := by
        rw [← pow_succ, ← pow_add]
        congr 1
        omega
      rw [hk, ← Nat.mul_assoc, Nat.mul_comm a (2 ^ i), Nat.mul_assoc,
        Nat.mul_div_cancel_left _ (Nat.pos_pow_of_pos i (by omega))]
      ring
    rw [hsplit]
    have : (a * 2 ^ (k - i - 1) * 2 + b / 2 ^ i) % 2 = b / 2 ^ i % 2 := by
      omega
    rw [this]
  · have hki : (i ≥ k) := h
    rw [decide_eq_true hki, Bool.true_and]
    have hb' : b.testBit i = false :=
      Nat.testBit_lt_two_pow (lt_of_lt_of_le hb (Nat.pow_le_pow_right (by omega) h))
    rw [hb', Bool.or_false]
    rw [Nat.testBit_to_div_mod, Nat.testBit_to_div_mod]
    have hi : (2 : Nat) ^ i = 2 ^ k * 2 ^ (i - k) := by
      rw [← pow_add]; congr 1; omega
    rw [hi, ← Nat.div_div_eq_div_mul, Nat.mul_comm a (2 ^ k),
      Nat.mul_add_div (Nat.pos_pow_of_pos k (by omega)),
      Nat.div_eq_of_lt hb, Nat.add_zero]

/-! ### Reconstruction lemmas for the big-endian integer codec -/

/-- Variant of `shiftLeft_lor_eq_add` stated on multiplication. -/
theorem lor_mul_pow_eq_add (a b k : Nat) (hb : b < 2 ^ k) :
    (a * 2 ^ k) ||| b = a * 2 ^ k + b := by
  have h := shiftLeft_lor_eq_add a b k hb
  rwa [Nat.shiftLeft_eq] at h

/-- Two big-endian bytes compose to their place value. -/
theorem lor_bytes2 (b0 b1 : Nat) (h1 : b1 < 256) :
    b0 <<< 8 ||| b1 = b0 * 2 ^ 8 + b1 := by
  rw [Nat.shiftLeft_eq]
  exact lor_mul_pow_eq_add b0 b1 8 (by norm_num at h1 ⊢; omega)

/-- Four big-endian bytes compose to their place value. -/
theorem lor_bytes4 (b0 b1 b2 b3 : Nat)
    (h1 : b1 < 256) (h2 : b2 < 256) (h3 : b3 < 256) :
    b0 <<< 24 ||| b1 <<< 16 ||| b2 <<< 8 ||| b3 =
      b0 * 2 ^ 24 + b1 * 2 ^ 16 + b2 * 2 ^ 8 + b3 := by
  rw [Nat.shiftLeft_eq, Nat.shiftLeft_eq, Nat.shiftLeft_eq]
  rw [lor_mul_pow_eq_add b0 (b1 * 2 ^ 16) 24 (by nlinarith)]
  rw [show b0 * 2 ^ 24 + b1 * 2 ^ 16 = (b0 * 2 ^ 8 + b1) * 2 ^ 16 by ring]
  rw [lor_mul_pow_eq_add _ (b2 * 2 ^ 8) 16 (by nlinarith)]
  rw [show (b0 * 2 ^ 8 + b1) * 2 ^ 16 + b2 * 2 ^ 8 =
        (b0 * 2 ^ 16 + b1 * 2 ^ 8 + b2) * 2 ^ 8 by ring]
  rw [lor_mul_pow_eq_add _ b3 8 (by omega)]

/-- Eight big-endian bytes compose to their place value. -/
theorem lor_bytes8 (b0 b1 b2 b3 b4 b5 b6 b7 : Nat)
    (h1 : b1 < 256) (h2 : b2 < 256) (h3 : b3 < 256) (h4 : b4 < 256)
    (h5 : b5 < 256) (h6 : b6 < 256) (h7 : b7 < 256) :
    b0 <<< 56 ||| b1 <<< 48 ||| b2 <<< 40 ||| b3 <<< 32 |||
      b4 <<< 24 ||| b5 <<< 16 ||| b6 <<< 8 ||| b7 =
      b0 * 2 ^ 56 + b1 * 2 ^ 48 + b2 * 2 ^ 40 + b3 * 2 ^ 32 +
        b4 * 2 ^ 24 + b5 * 2 ^ 16 + b6 * 2 ^ 8 + b7 := by
  rw [Nat.shiftLeft_eq, Nat.shiftLeft_eq, Nat.shiftLeft_eq, Nat.shiftLeft_eq,
    Nat.shiftLeft_eq, Nat.shiftLeft_eq, Nat.shiftLeft_eq]
  rw [lor_mul_pow_eq_add b0 (b1 * 2 ^ 48) 56 (by nlinarith)]
  rw [show b0 * 2 ^ 56 + b1 * 2 ^ 48 = (b0 * 2 ^ 8 + b1) * 2 ^ 48 by ring]
  rw [lor_mul_pow_eq_add _ (b2 * 2 ^ 40) 48 (by nlinarith)]
  rw [show (b0 * 2 ^ 8 + b1) * 2 ^ 48 + b2 * 2 ^ 40 =
        (b0 * 2 ^ 16 + b1 * 2 ^ 8 + b2) * 2 ^ 40 by ring]
  rw [lor_mul_pow_eq_add _ (b3 * 2 ^ 32) 40 (by nlinarith)]
  rw [show (b0 * 2 ^ 16 + b1 * 2 ^ 8 + b2) * 2 ^ 40 + b3 * 2 ^ 32 =
        (b0 * 2 ^ 24 + b1 * 2 ^ 16 + b2 * 2 ^ 8 + b3) * 2 ^ 32 by ring]
  rw [lor_mul_pow_eq_add _ (b4 * 2 ^ 24) 32 (by nlinarith)]
  rw [show (b0 * 2 ^ 24 + b1 * 2 ^ 16 + b2 * 2 ^ 8 + b3) * 2 ^ 32 + b4 * 2 ^ 24 =
        (b0 * 2 ^ 32 + b1 * 2 ^ 24 + b2 * 2 ^ 16 + b3 * 2 ^ 8 + b4) * 2 ^ 24 by ring]
  rw [lor_mul_pow_eq_add _ (b5 * 2 ^ 16) 24 (by nlinarith)]
  rw [show (b0 * 2 ^ 32 + b1 * 2 ^ 24 + b2 * 2 ^ 16 + b3 * 2 ^ 8 + b4) * 2 ^ 24 +
        b5 * 2 ^ 16 =
        (b0 * 2 ^ 40 + b1 * 2 ^ 32 + b2 * 2 ^ 24 + b3 * 2 ^ 16 + b4 * 2 ^ 8 + b5) *
          2 ^ 16 by ring]
  rw [lor_mul_pow_eq_add _ (b6 * 2 ^ 8) 16 (by nlinarith)]
  rw [show (b0 * 2 ^ 40 + b1 * 2 ^ 32 + b2 * 2 ^ 24 + b3 * 2 ^ 16 + b4 * 2 ^ 8 + b5) *
        2 ^ 16 + b6 * 2 ^ 8 =
        (b0 * 2 ^ 48 + b1 * 2 ^ 40 + b2 * 2 ^ 32 + b3 * 2 ^ 24 + b4 * 2 ^ 16 +
          b5 * 2 ^ 8 + b6) * 2 ^ 8 by ring]
  rw [lor_mul_pow_eq_add _ b7 8 (by omega)]

theorem cstr_of_no_nul (l : List Nat) (h : 0 ∉ l) : cstr l = l := by
  unfold cstr
  rw [List.takeWhile_eq_self_iff]
  intro a ha
  simp only [ne_eq, decide_eq_true_eq]
  intro hh
  subst hh
  exact h ha

theorem cstr_no_nul (l : List Nat) : 0 ∉ cstr l := by
  intro hmem
  have := List.mem_takeWhile_imp hmem
  simp at this

theorem strlen_of_no_nul (l : List Nat) (h : 0 ∉ l) : strlen l = l.length := by
  rw [strlen, cstr_of_no_nul l h]

/-! ### Integer pack/unpack round-trips -/

/-- Unsigned 16-bit round-trip. -/
theorem unpacku16_packi16 (n : Nat) (h : n < 2 ^ 16) :
    unpacku16 (packi16 n) = n := by
  simp only [unpacku16, packi16, List.getD_cons_zero, List.getD_cons_succ]
  rw [lor_bytes2 _ _ (Nat.mod_lt _ (by norm_num))]
  rw [Nat.shiftRight_eq_div_pow]
  omega

/-- Signed 16-bit round-trip: the caller converts to `unsigned int`
(two's complement), and `unpacki16` sign-extends the 16-bit field. -/
theorem unpacki16_packi16 (x : Int) (h1 : -2 ^ 15 ≤ x) (h2 : x < 2 ^ 15) :
    unpacki16 (packi16 (toUnsigned 32 x)) = x := by
  simp only [unpacki16, packi16, toUnsigned, List.getD_cons_zero, List.getD_cons_succ]
  rw [lor_bytes2 _ _ (Nat.mod_lt _ (by norm_num))]
  rw [Nat.shiftRight_eq_div_pow]
  split <;> omega

/-- Unsigned 32-bit round-trip. -/
theorem unpacku32_packi32 (n : Nat) (h : n < 2 ^ 32) :
    unpacku32 (packi32 n) = n := by
  simp only [unpacku32, packi32, List.getD_cons_zero, List.getD_cons_succ]
  rw [lor_bytes4 _ _ _ _ (Nat.mod_lt _ (by norm_num)) (Nat.mod_lt _ (by norm_num))
    (Nat.mod_lt _ (by norm_num))]
  simp only [Nat.shiftRight_eq_div_pow]
  omega

/-- Signed 32-bit round-trip: the caller converts to `unsigned long`. -/
theorem unpacki32_packi32 (x : Int) (h1 : -2 ^ 31 ≤ x) (h2 : x < 2 ^ 31) :
    unpacki32 (packi32 (toUnsigned 64 x)) = x := by
  simp only [unpacki32, packi32, toUnsigned, List.getD_cons_zero, List.getD_cons_succ]
  rw [lor_bytes4 _ _ _ _ (Nat.mod_lt _ (by norm_num)) (Nat.mod_lt _ (by norm_num))
    (Nat.mod_lt _ (by norm_num))]
  simp only [Nat.shiftRight_eq_div_pow]
  split <;> omega

/-- Unsigned 64-bit round-trip. -/
theorem unpacku64_packi64 (n : Nat) (h : n < 2 ^ 64) :
    unpacku64 (packi64 n) = n := by
  simp only [unpacku64, packi64, List.getD_cons_zero, List.getD_cons_succ]
  rw [lor_bytes8 _ _ _ _ _ _ _ _ (Nat.mod_lt _ (by norm_num))
    (Nat.mod_lt _ (by norm_num)) (Nat.mod_lt _ (by norm_num))
    (Nat.mod_lt _ (by norm_num)) (Nat.mod_lt _ (by norm_num))
    (Nat.mod_lt _ (by norm_num)) (Nat.mod_lt _ (by norm_num))]
  simp only [Nat.shiftRight_eq_div_pow]
  omega

/-- Signed 64-bit round-trip: the caller converts to `unsigned long long`. -/
theorem unpacki64_packi64 (x : Int) (h1 : -2 ^ 63 ≤ x) (h2 : x < 2 ^ 63) :
    unpacki64 (packi64 (toUnsigned 64 x)) = x := by
  simp only [unpacki64, packi64, toUnsigned, List.getD_cons_zero, List.getD_cons_succ]
  rw [lor_bytes8 _ _ _ _ _ _ _ _ (Nat.mod_lt _ (by norm_num))
    (Nat.mod_lt _ (by norm_num)) (Nat.mod_lt _ (by norm_num))
    (Nat.mod_lt _ (by norm_num)) (Nat.mod_lt _ (by norm_num))
    (Nat.mod_lt _ (by norm_num)) (Nat.mod_lt _ (by norm_num))]
  simp only [Nat.shiftRight_eq_div_pow]
  split <;> omega

/-- C4: for every integer in the representable range of its width (16, 32 or
64 bits, signed or unsigned), unpacking the big-endian bytes produced by
packing it returns it exactly; the signed decodes are the two's-complement
sign extension of the big-endian field. -/
theorem claim_C4_integer_roundtrip :
    (∀ x : Int, -2 ^ 15 ≤ x → x < 2 ^ 15 →
      unpacki16 (packi16 (toUnsigned 32 x)) = x) ∧
    (∀ n : Nat, n < 2 ^ 16 → unpacku16 (packi16 n) = n) ∧
    (∀ x : Int, -2 ^ 31 ≤ x → x < 2 ^ 31 →
      unpacki32 (packi32 (toUnsigned 64 x)) = x) ∧
    (∀ n : Nat, n < 2 ^ 32 → unpacku32 (packi32 n) = n) ∧
    (∀ x : Int, -2 ^ 63 ≤ x → x < 2 ^ 63 →
      unpacki64 (packi64 (toUnsigned 64 x)) = x) ∧
    (∀ n : Nat, n < 2 ^ 64 → unpacku64 (packi64 n) = n) :=
  ⟨unpacki16_packi16, unpacku16_packi16, unpacki32_packi32,
   unpacku32_packi32, unpacki64_packi64, unpacku64_packi64⟩

/-- Witness for C4 at concrete inputs of each width. -/
theorem claim_C4_integer_roundtrip_witness :
    unpacki16 (packi16 (toUnsigned 32 (-12345))) = -12345 ∧
    unpacku16 (packi16 60000) = 60000 ∧
    unpacki32 (packi32 (toUnsigned 64 (-123456789))) = -123456789 ∧
    unpacku32 (packi32 4000000000) = 4000000000 ∧
    unpacki64 (packi64 (toUnsigned 64 (-1234567890123))) = -1234567890123 ∧
    unpacku64 (packi64 18000000000000000000) = 18000000000000000000 :=
  ⟨claim_C4_integer_roundtrip.1 (-12345) (by norm_num) (by norm_num),
   claim_C4_integer_roundtrip.2.1 60000 (by norm_num),
   claim_C4_integer_roundtrip.2.2.1 (-123456789) (by norm_num) (by norm_num),
   claim_C4_integer_roundtrip.2.2.2.1 4000000000 (by norm_num),
   claim_C4_integer_roundtrip.2.2.2.2.1 (-1234567890123) (by norm_num) (by norm_num),
   claim_C4_integer_roundtrip.2.2.2.2.2 18000000000000000000 (by norm_num)⟩

/-! ### Easy consequences of the definitions -/

/-- A put with a null value pointer is rejected by the sanity check and
changes nothing. -/
theorem put_none_noop (m : dynamicmessage) (name : List Nat) (t : Int) :
    dynmessage_put_field_and_value m name t none = m := rfl

/-- The deserializer returns a message (possibly empty) whenever the frame
verifies, so `none` is returned exactly on verification failure. -/
theorem deserialize_none_iff (data : List Nat) :
    dynmessage_deserialize_bin data = none ↔
      verify_full_dynmessage data = false := by
  unfold dynmessage_deserialize_bin
  cases hv : verify_full_dynmessage data
  · simp
  · simp only [if_pos]
    constructor
    · intro h
      split at h <;> simp at h
    · intro h
      simp at h

/-! ### C1 — the serialized-length formula -/

/-- C1: the claim says the length formula uses the fixed sizes ENUM=4,
I16=2, U16=2, I32=4, U32=4, I64=8, U64=8, F32=4, F64=8.  The code's
`DYN_FIELD_TYPE_SER_SIZE` initializer predates the two 8-bit enum members,
so every tag from `INT16_TYPE` on reads its neighbour's slot: I16 and U16
get 4, I32 and U32 get 8, I64 gets 4, F32 and F64 get 0.  Consequently a
message `"m"` with a single I16 field `"f"` has computed length
`16 + 1 + (16 + 1 + 4) = 38`, where the claim's formula yields
`16 + 1 + (16 + 1 + 2) = 36`. -/
theorem claim_C1_serialized_len_eval :
    DYN_FIELD_TYPE_SER_SIZE.getD INT16_TYPE.toNat 0 = 4 ∧
    DYN_FIELD_TYPE_SER_SIZE.getD UNSIGNED_INT16_TYPE.toNat 0 = 4 ∧
    DYN_FIELD_TYPE_SER_SIZE.getD INT32_TYPE.toNat 0 = 8 ∧
    DYN_FIELD_TYPE_SER_SIZE.getD UNSIGNED_INT32_TYPE.toNat 0 = 8 ∧
    DYN_FIELD_TYPE_SER_SIZE.getD INT64_TYPE.toNat 0 = 4 ∧
    DYN_FIELD_TYPE_SER_SIZE.getD FLOAT32_TYPE.toNat 0 = 0 ∧
    DYN_FIELD_TYPE_SER_SIZE.getD FLOAT64_TYPE.toNat 0 = 0 ∧
    calc_dynmessage_serialized_len msg_i16_example = 38 := by
  decide

/-! ### C2 — frame round-trip -/

/-- C2: round-tripping the well-formed message `"m" { f : I64 = 1 }` loses
the value.  The size table assigns I64 value size 4, so the serializer
writes an 8-byte big-endian value of which only the first 4 bytes land
inside the accounted region, and the deserializer reads a 4-byte buffer
back as an 8-byte integer; the reconstructed field holds `0`, not `1`. -/
theorem claim_C2_roundtrip_eval :
    (dynmessage_get_field msg_i64_example [102]).value =
      some (.int64_value 1) ∧
    dynmessage_deserialize_bin
        ((dynmessage_serialize_bin msg_i64_example).getD []) =
      some { name := [109],
             fields_info := [{ name := [102], type := INT64_TYPE,
                               value := some (.int64_value 0), seq := 1 }],
             field_count := 1 } := by
  decide

/-! ### C8 — empty message -/

/-- C8: a message with zero fields has computed serialized length `0`
(hence at most 32), and the serializer declines to emit: the
`serialized_data_info` carrier stays unset. -/
theorem claim_C8_empty_message (m : dynamicmessage)
    (h : m.field_count = 0) :
    calc_dynmessage_serialized_len m = 0 ∧
    calc_dynmessage_serialized_len m ≤ 32 ∧
    dynmessage_serialize_bin m = none := by
  have hfl : dynmessage_get_fields m = [] := by
    unfold dynmessage_get_fields
    rw [if_neg]
    omega
  have hlen : calc_dynmessage_serialized_len m = 0 := by
    unfold calc_dynmessage_serialized_len
    rw [hfl]
    simp
  refine ⟨hlen, by omega, ?_⟩
  unfold dynmessage_serialize_bin
  rw [hlen]
  simp [DYN_MSG_MIN_LEN]

/-- Witness for C8 at the message `"empty"` of the example scenario. -/
theorem claim_C8_empty_message_witness :
    calc_dynmessage_serialized_len (dynmessage_init [101, 109, 112, 116, 121]) = 0 ∧
    calc_dynmessage_serialized_len (dynmessage_init [101, 109, 112, 116, 121]) ≤ 32 ∧
    dynmessage_serialize_bin (dynmessage_init [101, 109, 112, 116, 121]) = none :=
  claim_C8_empty_message (dynmessage_init [101, 109, 112, 116, 121]) rfl

/-! ### C3 — rejection of malformed frames -/

/-- C3, counterexample: the claim says an input too short to contain the
headers is rejected, but the 4-byte input consisting of exactly the magic
bytes `3E 3E 3E 3D` passes verification (with fewer than 8 bytes the
total-length decoder returns `0`, and `0 ≤ 4`), and the deserializer
returns a message instead of a null pointer. -/
theorem claim_C3_counterexample :
    verify_full_dynmessage [62, 62, 62, 61] = true ∧
    (dynmessage_deserialize_bin [62, 62, 62, 61]).isSome = true := by
  decide

/-- C3, amended: the deserializer returns a null pointer exactly when the
first 4 bytes are absent or differ from the magic, or when the input has at
least 8 bytes and its decoded total-length header exceeds the physical
length.  An input of 4 to 7 bytes that starts with the magic is accepted
(its total length is read as `0`), and no other input is rejected. -/
theorem claim_C3_reject_characterization (data : List Nat) :
    dynmessage_deserialize_bin data = none ↔
      (data.length < 4 ∨ deserialize_int32 data ≠ DYN_MSG_START ∨
        (8 ≤ data.length ∧
          (data.length : Int) < deserialize_int32 (strslice data 4 4))) := by
  rw [deserialize_none_iff]
  have hfalse : verify_full_dynmessage data = false ↔
      ¬ (verify_full_dynmessage data = true) := by
    simp
  rw [hfalse]
  unfold verify_full_dynmessage verify_dynmessage_start
  unfold get_encoded_dynmessage_length
  simp only [Bool.and_eq_true, decide_eq_true_eq]
  by_cases h8 : 8 ≤ data.length
  · rw [if_pos h8]
    constructor
    · intro h
      by_cases hP : deserialize_int32 data = DYN_MSG_START
      · right
        right
        refine ⟨h8, ?_⟩
        by_contra hle
        push_neg at hle
        exact h ⟨⟨by omega, hP⟩, hle⟩
      · right
        left
        exact hP
    · rintro (h | h | ⟨-, hlt⟩) hc
      · omega
      · exact h hc.1.2
      · have := hc.2
        omega
  · rw [if_neg h8]
    constructor
    · intro h
      by_cases hP : deserialize_int32 data = DYN_MSG_START
      · left
        by_contra h4
        push_neg at h4
        exact h ⟨⟨by omega, hP⟩, Int.natCast_nonneg _⟩
      · right
        left
        exact hP
    · rintro (h | h | ⟨h88, -⟩) hc
      · omega
      · exact h hc.1.2
      · omega

/-! ### C7 — field construction during decoding -/

/-- C7, counterexample: the claim says the decoder's `dynmessage_put_field`
call registers the field, allocating its `seq` with a null value.  But
`dynmessage_put_field` expands to `dynmessage_put_field_and_value` with a
null value pointer, which the sanity check rejects: on a fresh message it
registers nothing and `field_count` stays `0`. -/
theorem claim_C7_counterexample :
    dynmessage_put_field (dynmessage_init [109]) [102] INT32_TYPE =
      dynmessage_init [109] ∧
    (dynmessage_put_field (dynmessage_init [109]) [102] INT32_TYPE).field_count
      = 0 ∧
    (dynmessage_put_field (dynmessage_init [109]) [102]
        INT32_TYPE).fields_info = [] := by
  decide

/-- C7, amended: the decoder's `put_field` call is a no-op for every
message, name and type (its null value pointer fails the sanity check), so
a field is registered — and its `seq` allocated — only by the typed
`put_field_and_value` call that carries the decoded value.  A sub-frame
whose type tag has no case in the decoder's switch (`INT8`, `UINT8`,
`NO_TYPE`, or any ordinal outside the enumeration) consumes its `l` value
bytes and leaves the message entirely unchanged: no field and no `seq` is
created for it. -/
theorem claim_C7_decoder_registration :
    (∀ (m : dynamicmessage) (name : List Nat) (t : Int),
      dynmessage_put_field m name t = m) ∧
    (∀ (data : List Nat) (m : dynamicmessage) (pos k l : Nat) (t : Int),
      k = (deserialize_int32 (strslice data (pos + 4) 4)).toNat →
      t = deserialize_int32 (strslice data (pos + 4 + 4 + k) 4) →
      l = (deserialize_int32 (strslice data (pos + 4 + 4 + k + 4) 4)).toNat →
      (t = INT8_TYPE ∨ t = UNSIGNED_INT8_TYPE ∨ t = NO_TYPE ∨
        t < ENUMERATION_TYPE ∨ NO_TYPE < t) →
      deserialize_one_field data (m, pos) = (m, pos + 16 + k + l)) := by
  constructor
  · intro m name t
    rfl
  · intro data m pos k l t hk ht hl hcase
    simp only [INT8_TYPE, UNSIGNED_INT8_TYPE, NO_TYPE, ENUMERATION_TYPE] at hcase
    simp only [deserialize_one_field, dynmessage_put_field, put_none_noop]
    rw [← hk, ← ht, ← hl]
    rw [if_neg (by simp only [ENUMERATION_TYPE]; omega)]
    rw [if_neg (by simp only [INT16_TYPE]; omega)]
    rw [if_neg (by simp only [UNSIGNED_INT16_TYPE]; omega)]
    rw [if_neg (by simp only [INT32_TYPE]; omega)]
    rw [if_neg (by simp only [UNSIGNED_INT32_TYPE]; omega)]
    rw [if_neg (by simp only [INT64_TYPE]; omega)]
    rw [if_neg (by simp only [UNSIGNED_INT64_TYPE]; omega)]
    rw [if_neg (by simp only [FLOAT32_TYPE]; omega)]
    rw [if_neg (by simp only [FLOAT64_TYPE]; omega)]
    rw [if_neg (by simp only [STRING_TYPE]; omega)]
    simp only [Prod.mk.injEq]
    exact ⟨trivial, by omega⟩

/-! ### C5 — replacing an existing field's value -/

/-- The `cstr` reading of a buffer is stable. -/
theorem cstr_idem (l : List Nat) : cstr (cstr l) = cstr l :=
  cstr_of_no_nul (cstr l) (cstr_no_nul l)

/-- Storing the same caller value twice under the same stored type yields
the same stored union contents. -/
theorem updated_value_stable (t : Int) (old : Option dyn_field_value)
    (v : dyn_field_value) :
    updated_value t (some (updated_value t old v)) v =
      updated_value t old v := by
  by_cases h0 : t = ENUMERATION_TYPE
  · simp [updated_value, h0, dyn_field_value.as_enum]
  by_cases h1 : t = INT8_TYPE
  · simp [updated_value, h0, h1, dyn_field_value.as_int8]
  by_cases h2 : t = UNSIGNED_INT8_TYPE
  · simp [updated_value, h0, h1, h2, dyn_field_value.as_uint8]
  by_cases h3 : t = INT16_TYPE
  · simp [updated_value, h0, h1, h2, h3, dyn_field_value.as_int16]
  by_cases h4 : t = UNSIGNED_INT16_TYPE
  · simp [updated_value, h0, h1, h2, h3, h4, dyn_field_value.as_uint16]
  by_cases h5 : t = INT32_TYPE
  · simp [updated_value, h0, h1, h2, h3, h4, h5, dyn_field_value.as_int32]
  by_cases h6 : t = UNSIGNED_INT32_TYPE
  · simp [updated_value, h0, h1, h2, h3, h4, h5, h6, dyn_field_value.as_uint32]
  by_cases h7 : t = INT64_TYPE
  · simp [updated_value, h0, h1, h2, h3, h4, h5, h6, h7, dyn_field_value.as_int64]
  by_cases h8 : t = UNSIGNED_INT64_TYPE
  · simp [updated_value, h0, h1, h2, h3, h4, h5, h6, h7, h8,
      dyn_field_value.as_uint64]
  by_cases h9 : t = FLOAT32_TYPE
  · simp [updated_value, h0, h1, h2, h3, h4, h5, h6, h7, h8, h9,
      dyn_field_value.as_float32]
  by_cases h10 : t = FLOAT64_TYPE
  · simp [updated_value, h0, h1, h2, h3, h4, h5, h6, h7, h8, h9, h10,
      dyn_field_value.as_float64]
  by_cases h11 : t = STRING_TYPE
  · simp [updated_value, h0, h1, h2, h3, h4, h5, h6, h7, h8, h9, h10, h11,
      dyn_field_value.as_string, cstr_idem]
  · simp [updated_value, h0, h1, h2, h3, h4, h5, h6, h7, h8, h9, h10, h11]

/-- Unfolding equation: the head entry matches the key. -/
theorem update_field_in_cons_pos (n : List Nat) (v : dyn_field_value)
    (f : dyn_field) (rest : List dyn_field) (h : f.name = cstr n) :
    update_field_in n v (f :: rest) =
      { f with value := some (updated_value f.type f.value v) } :: rest := by
  unfold update_field_in
  rw [if_pos h]

/-- Unfolding equation: the head entry does not match the key. -/
theorem update_field_in_cons_neg (n : List Nat) (v : dyn_field_value)
    (f : dyn_field) (rest : List dyn_field) (h : ¬ f.name = cstr n) :
    update_field_in n v (f :: rest) = f :: update_field_in n v rest := by
  conv_lhs => unfold update_field_in
  rw [if_neg h]

/-- A value update never changes the stored names. -/
theorem update_field_in_map_name (n : List Nat) (v : dyn_field_value)
    (l : List dyn_field) :
    (update_field_in n v l).map (fun f => f.name) =
      l.map (fun f => f.name) := by
  induction l with
  | nil => rfl
  | cons f rest ih =>
    unfold update_field_in
    split
    · simp
    · simp only [List.map_cons]
      rw [ih]

/-- A value update never changes the stored types. -/
theorem update_field_in_map_type (n : List Nat) (v : dyn_field_value)
    (l : List dyn_field) :
    (update_field_in n v l).map (fun f => f.type) =
      l.map (fun f => f.type) := by
  induction l with
  | nil => rfl
  | cons f rest ih =>
    unfold update_field_in
    split
    · simp
    · simp only [List.map_cons]
      rw [ih]

/-- A value update never changes the stored sequence indices. -/
theorem update_field_in_map_seq (n : List Nat) (v : dyn_field_value)
    (l : List dyn_field) :
    (update_field_in n v l).map (fun f => f.seq) =
      l.map (fun f => f.seq) := by
  induction l with
  | nil => rfl
  | cons f rest ih =>
    unfold update_field_in
    split
    · simp
    · simp only [List.map_cons]
      rw [ih]

/-- A value update does not change the length of the entry list. -/
theorem update_field_in_length (n : List Nat) (v : dyn_field_value)
    (l : List dyn_field) :
    (update_field_in n v l).length = l.length := by
  have h := congrArg List.length (update_field_in_map_name n v l)
  simpa using h

/-- Key membership is unchanged by a value update. -/
theorem contains_update_field_in (n : List Nat) (v : dyn_field_value)
    (l : List dyn_field) (nm : List Nat) :
    hashmap_contains_key (update_field_in n v l) nm =
      hashmap_contains_key l nm := by
  induction l with
  | nil => rfl
  | cons f rest ih =>
    unfold update_field_in hashmap_contains_key
    unfold hashmap_contains_key at ih
    by_cases h : f.name = cstr n
    · rw [if_pos h]
      simp only [List.any_cons]
    · rw [if_neg h]
      simp only [List.any_cons]
      rw [ih]

/-- Looking the key up after a value update finds the field with its value
replaced (and its name, type and `seq` untouched). -/
theorem hashmap_get_update_field_in (n : List Nat) (v : dyn_field_value)
    (l : List dyn_field) :
    hashmap_get (update_field_in n v l) n =
      (hashmap_get l n).map
        (fun f => { f with value := some (updated_value f.type f.value v) }) := by
  induction l with
  | nil => rfl
  | cons f rest ih =>
    unfold update_field_in hashmap_get
    unfold hashmap_get at ih
    by_cases h : f.name = cstr n
    · rw [if_pos h]
      rw [List.find?_cons_of_pos _ (by simpa using h),
        List.find?_cons_of_pos _ (by simpa using h)]
      simp
    · rw [if_neg h]
      rw [List.find?_cons_of_neg _ (by simpa using h),
        List.find?_cons_of_neg _ (by simpa using h)]
      exact ih

/-- Updating twice with the same value is the same as updating once. -/
theorem update_field_in_idem (n : List Nat) (v : dyn_field_value)
    (l : List dyn_field) :
    update_field_in n v (update_field_in n v l) = update_field_in n v l := by
  induction l with
  | nil => rfl
  | cons f rest ih =>
    by_cases h : f.name = cstr n
    · rw [update_field_in_cons_pos n v f rest h]
      rw [update_field_in_cons_pos n v
        { f with value := some (updated_value f.type f.value v) } rest
        (show ({ f with
            value := some (updated_value f.type f.value v) } : dyn_field).name =
          cstr n from h)]
      simp [updated_value_stable]
    · rw [update_field_in_cons_neg n v f rest h]
      rw [update_field_in_cons_neg n v f _ h]
      rw [ih]

/-- Reduction of a put on a present key: only the value is replaced. -/
theorem put_some_of_contains (m : dynamicmessage) (name : List Nat) (t : Int)
    (v : dyn_field_value) (hr : ¬ (t < ENUMERATION_TYPE ∨ STRING_TYPE < t))
    (hc : hashmap_contains_key m.fields_info name = true) :
    dynmessage_put_field_and_value m name t (some v) =
      update_field_value m name v := by
  simp only [dynmessage_put_field_and_value]
  rw [if_neg hr, if_pos hc]

/-- A found entry witnesses key membership. -/
theorem contains_of_get (l : List dyn_field) (name : List Nat) (f : dyn_field)
    (h : hashmap_get l name = some f) :
    hashmap_contains_key l name = true := by
  unfold hashmap_get at h
  unfold hashmap_contains_key
  have hmem := List.mem_of_find?_eq_some h
  have hp := List.find?_some h
  exact List.any_eq_true.mpr ⟨f, hmem, hp⟩

/-- C5: a put whose name is already present (with any valid type argument)
replaces the stored value in place — `field_count` is unchanged, the field
keeps its stored name, type and `seq`, the new value is interpreted under
the stored type, and the result does not depend on the type argument of the
call; moreover the same put performed twice leaves the message equal to a
single put. -/
theorem claim_C5_put_replaces_in_place :
    (∀ (m : dynamicmessage) (name : List Nat) (t t' : Int)
        (v : dyn_field_value) (f : dyn_field),
      hashmap_get m.fields_info name = some f →
      ENUMERATION_TYPE ≤ t → t ≤ STRING_TYPE →
      ENUMERATION_TYPE ≤ t' → t' ≤ STRING_TYPE →
      ((dynmessage_put_field_and_value m name t (some v)).field_count =
          m.field_count ∧
        hashmap_get
            (dynmessage_put_field_and_value m name t (some v)).fields_info
            name =
          some { f with value := some (updated_value f.type f.value v) } ∧
        dynmessage_put_field_and_value m name t (some v) =
          dynmessage_put_field_and_value m name t' (some v))) ∧
    (∀ (m : dynamicmessage) (name : List Nat) (t : Int) (v : dyn_field_value),
      dynmessage_put_field_and_value
          (dynmessage_put_field_and_value m name t (some v)) name t (some v) =
        dynmessage_put_field_and_value m name t (some v)) := by
  constructor
  · intro m name t t' v f hf ht1 ht2 ht3 ht4
    have hc : hashmap_contains_key m.fields_info name = true :=
      contains_of_get m.fields_info name f hf
    have hr : ¬ (t < ENUMERATION_TYPE ∨ STRING_TYPE < t) := by
      push_neg
      exact ⟨ht1, ht2⟩
    have hr' : ¬ (t' < ENUMERATION_TYPE ∨ STRING_TYPE < t') := by
      push_neg
      exact ⟨ht3, ht4⟩
    rw [put_some_of_contains m name t v hr hc,
      put_some_of_contains m name t' v hr' hc]
    refine ⟨rfl, ?_, rfl⟩
    show hashmap_get (update_field_in name v m.fields_info) name = _
    rw [hashmap_get_update_field_in]
    unfold hashmap_get at hf ⊢
    rw [hf]
    rfl
  · intro m name t v
    by_cases hr : t < ENUMERATION_TYPE ∨ STRING_TYPE < t
    · simp only [dynmessage_put_field_and_value]
      rw [if_pos hr, if_pos hr]
    · by_cases hc : hashmap_contains_key m.fields_info name = true
      · rw [put_some_of_contains m name t v hr hc]
        have hc2 : hashmap_contains_key
            (update_field_value m name v).fields_info name = true := by
          show hashmap_contains_key
            (update_field_in name v m.fields_info) name = true
          rw [contains_update_field_in]
          exact hc
        rw [put_some_of_contains _ name t v hr hc2]
        show update_field_value (update_field_value m name v) name v =
          update_field_value m name v
        unfold update_field_value
        simp only [update_field_in_idem]
      · have h1 : dynmessage_put_field_and_value m name t (some v) =
            { m with
              fields_info :=
                update_field_in name v
                  ({ name := cstr name, type := t, value := none,
                     seq := m.field_count + 1 } :: m.fields_info),
              field_count := m.field_count + 1 } := by
          simp only [dynmessage_put_field_and_value]
          rw [if_neg hr, if_neg hc]
          rfl
        rw [h1]
        rw [update_field_in_cons_pos name v _ m.fields_info rfl]
        have hc3 : hashmap_contains_key
            ({ name := cstr name, type := t,
               value := some (updated_value t none v),
               seq := m.field_count + 1 } :: m.fields_info) name = true := by
          unfold hashmap_contains_key
          simp
        rw [put_some_of_contains _ name t v hr hc3]
        show update_field_value _ name v = _
        unfold update_field_value
        rw [update_field_in_cons_pos name v _ m.fields_info rfl]
        rw [show updated_value t (some (updated_value t none v)) v =
          updated_value t none v from updated_value_stable t none v]

/-- Witness for C5: replacing `f : I32 = 7` by `9` (with type arguments
`INT32_TYPE` and `INT16_TYPE`) on a concrete message. -/
theorem claim_C5_put_replaces_in_place_witness :
    (dynmessage_put_field_and_value msg_i32_example [102] INT32_TYPE
        (some (.int32_value 9))).field_count = msg_i32_example.field_count ∧
    hashmap_get (dynmessage_put_field_and_value msg_i32_example [102]
        INT32_TYPE (some (.int32_value 9))).fields_info [102] =
      some { name := [102], type := INT32_TYPE,
             value := some (.int32_value 9), seq := 1 } ∧
    dynmessage_put_field_and_value msg_i32_example [102] INT32_TYPE
        (some (.int32_value 9)) =
      dynmessage_put_field_and_value msg_i32_example [102] INT16_TYPE
        (some (.int32_value 9)) ∧
    dynmessage_put_field_and_value
        (dynmessage_put_field_and_value msg_i32_example [102] INT32_TYPE
          (some (.int32_value 9))) [102] INT32_TYPE (some (.int32_value 9)) =
      dynmessage_put_field_and_value msg_i32_example [102] INT32_TYPE
        (some (.int32_value 9)) := by
  obtain ⟨h1, h2, h3⟩ := claim_C5_put_replaces_in_place.1 msg_i32_example [102]
    INT32_TYPE INT16_TYPE (.int32_value 9)
    { name := [102], type := INT32_TYPE,
      value := some (.int32_value 7), seq := 1 }
    (by decide) (by decide) (by decide) (by decide) (by decide)
  refine ⟨h1, ?_, h3,
    claim_C5_put_replaces_in_place.2 msg_i32_example [102] INT32_TYPE
      (.int32_value 9)⟩
  rw [h2]
  decide

/-- Witness for C7: the no-op `put_field`, and a concrete sub-frame carrying
the unknown type ordinal `13` with a 5-byte value, which is skipped whole. -/
theorem claim_C7_decoder_registration_witness :
    dynmessage_put_field (dynmessage_init [109]) [103] STRING_TYPE =
      dynmessage_init [109] ∧
    deserialize_one_field
        [9, 9, 9, 9, 0, 0, 0, 0, 0, 0, 0, 13, 0, 0, 0, 5]
        (dynmessage_init [109], 0) =
      (dynmessage_init [109], 21) :=
  ⟨claim_C7_decoder_registration.1 (dynmessage_init [109]) [103] STRING_TYPE,
   claim_C7_decoder_registration.2
     [9, 9, 9, 9, 0, 0, 0, 0, 0, 0, 0, 13, 0, 0, 0, 5]
     (dynmessage_init [109]) 0 0 5 13
     (by decide) (by decide) (by decide) (by decide)⟩

/-! ### The container invariant along reachable messages -/

/-- Reduction of a put on a fresh key: the field is appended with the next
`seq` and immediately given its value. -/
theorem put_some_of_not_contains (m : dynamicmessage) (name : List Nat)
    (t : Int) (v : dyn_field_value)
    (hr : ¬ (t < ENUMERATION_TYPE ∨ STRING_TYPE < t))
    (hc : ¬ hashmap_contains_key m.fields_info name = true) :
    dynmessage_put_field_and_value m name t (some v) =
      { m with
        fields_info :=
          { name := cstr name, type := t,
            value := some (updated_value t none v),
            seq := m.field_count + 1 } :: m.fields_info,
        field_count := m.field_count + 1 } := by
  simp only [dynmessage_put_field_and_value]
  rw [if_neg hr, if_neg hc]
  show update_field_value _ name v = _
  unfold update_field_value
  simp only
  rw [update_field_in_cons_pos name v _ m.fields_info rfl]

/-- Membership in an updated entry list: an entry is either untouched or
the updated copy of an original entry. -/
theorem update_field_in_mem (n : List Nat) (v : dyn_field_value)
    (l : List dyn_field) (f' : dyn_field)
    (h : f' ∈ update_field_in n v l) :
    f' ∈ l ∨ ∃ f ∈ l,
      f' = { f with value := some (updated_value f.type f.value v) } := by
  induction l with
  | nil => simp [update_field_in] at h
  | cons f rest ih =>
    by_cases hn : f.name = cstr n
    · rw [update_field_in_cons_pos n v f rest hn] at h
      rcases List.mem_cons.mp h with h1 | h1
      · right
        exact ⟨f, List.mem_cons_self f rest, h1⟩
      · left
        exact List.mem_cons_of_mem f h1
    · rw [update_field_in_cons_neg n v f rest hn] at h
      rcases List.mem_cons.mp h with h1 | h1
      · left
        rw [h1]
        exact List.mem_cons_self f rest
      · rcases ih h1 with h2 | ⟨g, hg, hgeq⟩
        · left
          exact List.mem_cons_of_mem f h2
        · right
          exact ⟨g, List.mem_cons_of_mem f hg, hgeq⟩

/-- Peeling one entry off the descending `seq` list. -/
theorem seqListDesc_succ (n : Nat) :
    seqListDesc (n + 1) = ((n : Int) + 1) :: seqListDesc n := by
  unfold seqListDesc
  rw [List.range_succ]
  simp

/-- Every reachable message satisfies the container invariant. -/
theorem reachable_msgInv (m : dynamicmessage) (h : Reachable m) : msgInv m := by
  induction h with
  | init name =>
    refine ⟨rfl, ?_, ?_, ?_⟩
    · intro f hf
      simp [dynmessage_init] at hf
    · simp [dynmessage_init]
    · simp [dynmessage_init, seqListDesc]
  | put m name t v hm ih =>
    obtain ⟨ihcount, ihfields, ihnodup, ihseq⟩ := ih
    match v with
    | none =>
      rw [put_none_noop]
      exact ⟨ihcount, ihfields, ihnodup, ihseq⟩
    | some v =>
      by_cases hr : t < ENUMERATION_TYPE ∨ STRING_TYPE < t
      · have : dynmessage_put_field_and_value m name t (some v) = m := by
          simp only [dynmessage_put_field_and_value]
          rw [if_pos hr]
        rw [this]
        exact ⟨ihcount, ihfields, ihnodup, ihseq⟩
      · by_cases hc : hashmap_contains_key m.fields_info name = true
        · rw [put_some_of_contains m name t v hr hc]
          show msgInv { m with
            fields_info := update_field_in name v m.fields_info }
          refine ⟨?_, ?_, ?_, ?_⟩
          · show m.field_count = ((update_field_in name v m.fields_info).length : Int)
            rw [update_field_in_length]
            exact ihcount
          · intro f' hf'
            rcases update_field_in_mem name v m.fields_info f' hf' with h1 | ⟨f, hf, heq⟩
            · exact ihfields f' h1
            · obtain ⟨ha, hb, hcc, _⟩ := ihfields f hf
              rw [heq]
              exact ⟨ha, hb, hcc, by simp⟩
          · show ((update_field_in name v m.fields_info).map _).Nodup
            rw [update_field_in_map_name]
            exact ihnodup
          · show (update_field_in name v m.fields_info).map _ =
              seqListDesc (update_field_in name v m.fields_info).length
            rw [update_field_in_map_seq, update_field_in_length]
            exact ihseq
        · rw [put_some_of_not_contains m name t v hr hc]
          have hnew : ∀ f ∈ m.fields_info, ¬ (f.name = cstr name) := by
            intro f hf
            intro heq
            apply hc
            unfold hashmap_contains_key
            exact List.any_eq_true.mpr ⟨f, hf, by simp [heq]⟩
          push_neg at hr
          refine ⟨?_, ?_, ?_, ?_⟩
          · show m.field_count + 1 = ((m.fields_info.length + 1 : Nat) : Int)
            push_cast
            omega
          · intro f' hf'
            rcases List.mem_cons.mp hf' with h1 | h1
            · rw [h1]
              exact ⟨cstr_no_nul name, hr.1, hr.2, by simp⟩
            · exact ihfields f' h1
          · refine List.Nodup.cons ?_ ihnodup
            intro hmem
            simp only [List.mem_map] at hmem
            obtain ⟨f, hf, hfeq⟩ := hmem
            exact hnew f hf hfeq
          · show (m.field_count + 1) :: m.fields_info.map _ =
              seqListDesc (m.fields_info.length + 1)
            rw [seqListDesc_succ, ihseq]
            rw [ihcount]

/-! ### C10 — every stored field is typed and valued -/

/-- C10: in every reachable message each stored field carries a non-null
value and a type strictly inside `ENUMERATION_TYPE..STRING_TYPE`; a put
with a null value pointer never changes the message, and neither does a put
whose type tag is out of range (in particular `NO_TYPE`), so no field ever
exists in a "value optional until first set" state. -/
theorem claim_C10_fields_always_valued :
    (∀ m, Reachable m → ∀ f ∈ m.fields_info,
      f.value ≠ none ∧ ENUMERATION_TYPE ≤ f.type ∧ f.type ≤ STRING_TYPE) ∧
    (∀ (m : dynamicmessage) (name : List Nat) (t : Int),
      dynmessage_put_field_and_value m name t none = m) ∧
    (∀ (m : dynamicmessage) (name : List Nat) (t : Int)
        (v : Option dyn_field_value),
      t < ENUMERATION_TYPE ∨ STRING_TYPE < t →
      dynmessage_put_field_and_value m name t v = m) := by
  refine ⟨?_, put_none_noop, ?_⟩
  · intro m hm f hf
    obtain ⟨-, hfields, -, -⟩ := reachable_msgInv m hm
    obtain ⟨-, hb, hcc, hd⟩ := hfields f hf
    exact ⟨hd, hb, hcc⟩
  · intro m name t v hr
    match v with
    | none => rfl
    | some v =>
      simp only [dynmessage_put_field_and_value]
      rw [if_pos hr]

/-- Witness for C10 on a concrete reachable message and concrete no-op
puts. -/
theorem claim_C10_fields_always_valued_witness :
    ((⟨[102], INT32_TYPE, some (.int32_value 7), 1⟩ : dyn_field).value ≠ none ∧
      ENUMERATION_TYPE ≤ (⟨[102], INT32_TYPE, some (.int32_value 7), 1⟩ : dyn_field).type ∧
      (⟨[102], INT32_TYPE, some (.int32_value 7), 1⟩ : dyn_field).type ≤ STRING_TYPE) ∧
    dynmessage_put_field_and_value msg_i32_example [103] STRING_TYPE none =
      msg_i32_example ∧
    dynmessage_put_field_and_value msg_i32_example [103] NO_TYPE
        (some (.int32_value 5)) =
      msg_i32_example :=
  ⟨claim_C10_fields_always_valued.1 msg_i32_example
      (Reachable.put (dynmessage_init [109]) [102] INT32_TYPE
        (some (.int32_value 7)) (Reachable.init [109]))
      ⟨[102], INT32_TYPE, some (.int32_value 7), 1⟩ (by decide),
   claim_C10_fields_always_valued.2.1 msg_i32_example [103] STRING_TYPE,
   claim_C10_fields_always_valued.2.2 msg_i32_example [103] NO_TYPE
     (some (.int32_value 5)) (by decide)⟩

/-! ### C6 — snapshot ordering -/

/-- With unique names, name lookup finds exactly the member field. -/
theorem find?_name_of_nodup (l : List dyn_field) (f : dyn_field)
    (hnodup : (l.map (fun g => g.name)).Nodup) (hf : f ∈ l) :
    l.find? (fun g => g.name = f.name) = some f := by
  induction l with
  | nil => simp at hf
  | cons g rest ih =>
    rcases List.mem_cons.mp hf with h1 | h1
    · rw [h1]
      rw [List.find?_cons_of_pos _ (by simp)]
    · have hgn : g.name ∉ rest.map (fun x => x.name) :=
        (List.nodup_cons.mp (by simpa using hnodup)).1
      have hne : ¬ (g.name = f.name) := by
        intro he
        exact hgn (he ▸ List.mem_map.mpr ⟨f, h1, rfl⟩)
      rw [List.find?_cons_of_neg _ (by simpa using hne)]
      exact ih (List.nodup_cons.mp (by simpa using hnodup)).2 h1

/-- Looking up a member field of a message with unique NUL-free names
returns that field (the filled output record is the field itself). -/
theorem get_field_of_mem (m : dynamicmessage)
    (hnodup : (m.fields_info.map (fun g => g.name)).Nodup)
    (hnul : ∀ f ∈ m.fields_info, (0 : Nat) ∉ f.name)
    (f : dyn_field) (hf : f ∈ m.fields_info) :
    dynmessage_get_field m f.name = f := by
  unfold dynmessage_get_field hashmap_get
  rw [cstr_of_no_nul f.name (hnul f hf)]
  rw [find?_name_of_nodup m.fields_info f hnodup hf]

/-- Filling the snapshot array: folding the key loop over fields whose
`seq` values run down from `|L|` to `1` writes every slot `i < |L|` with
the field whose `seq` is `i + 1`, leaves higher slots untouched, and keeps
the array length. -/
theorem fold_fill (m : dynamicmessage) (L : List dyn_field)
    (arr : List (Option dyn_field))
    (hget : ∀ f ∈ L, dynmessage_get_field m f.name = f)
    (hseq : L.map (fun f => f.seq) = seqListDesc L.length)
    (hlen : L.length ≤ arr.length) :
    (L.foldl (fun arr f => get_fields_write m arr f.name) arr).length =
        arr.length ∧
    (∀ i : Nat, i < L.length →
      ∃ f ∈ L, f.seq = (i : Int) + 1 ∧
        (L.foldl (fun arr f => get_fields_write m arr f.name) arr)[i]? =
          some (some f)) ∧
    (∀ i : Nat, L.length ≤ i →
      (L.foldl (fun arr f => get_fields_write m arr f.name) arr)[i]? =
        arr[i]?) := by
  induction L generalizing arr with
  | nil =>
    refine ⟨rfl, ?_, fun i _ => rfl⟩
    intro i hi
    simp at hi
  | cons f rest ih =>
    rw [show (f :: rest).length = rest.length + 1 from rfl, seqListDesc_succ,
      List.map_cons] at hseq
    injection hseq with hfseq hrestseq
    have hgf : dynmessage_get_field m f.name = f :=
      hget f (List.mem_cons_self f rest)
    have harr' : get_fields_write m arr f.name =
        arr.set rest.length (some f) := by
      unfold get_fields_write
      rw [hgf]
      show arr.set (f.seq - 1).toNat (some f) = arr.set rest.length (some f)
      rw [hfseq]
      norm_num
    rw [List.foldl_cons, harr']
    have hlen1 : (f :: rest).length ≤ arr.length := hlen
    obtain ⟨ihlen, ihmid, ihhigh⟩ := ih (arr.set rest.length (some f))
      (fun g hg => hget g (List.mem_cons_of_mem f hg)) hrestseq
      (by rw [List.length_set]; simp at hlen1; omega)
    refine ⟨by rw [ihlen, List.length_set], ?_, ?_⟩
    · intro i hi
      rcases lt_or_ge i rest.length with hlt | hge
      · obtain ⟨g, hgmem, hgseq, hgval⟩ := ihmid i hlt
        exact ⟨g, List.mem_cons_of_mem f hgmem, hgseq, hgval⟩
      · have hieq : i = rest.length := by
          simp only [List.length_cons] at hi
          omega
        subst hieq
        refine ⟨f, List.mem_cons_self f rest, hfseq, ?_⟩
        rw [ihhigh rest.length (le_refl _)]
        rw [List.getElem?_set_self (by simp at hlen1 ⊢; omega)]
    · intro i hge
      simp only [List.length_cons] at hge
      rw [ihhigh i (by omega), List.getElem?_set_ne (by omega)]

/-- The snapshot of a non-empty message as a fold over its entry list. -/
theorem get_fields_as_fold (m : dynamicmessage) (hpos : 0 < m.field_count) :
    dynmessage_get_fields m =
      m.fields_info.foldl (fun arr f => get_fields_write m arr f.name)
        (List.replicate m.field_count.toNat none) := by
  unfold dynmessage_get_fields
  rw [if_pos hpos]
  rw [List.foldl_map]
  rfl

/-- C6: in every reachable message the field names are unique and the `seq`
values are a dense permutation of `1..field_count`; the snapshot returned
by `dynmessage_get_fields` has `list_length = field_count`, and slot `i`
holds a field whose `seq` is `i + 1`. -/
theorem claim_C6_field_list_ordering (m : dynamicmessage) (h : Reachable m) :
    (m.fields_info.map (fun f => f.name)).Nodup ∧
    (m.fields_info.map (fun f => f.seq)).Perm
      ((List.range m.field_count.toNat).map (fun k : Nat => (k : Int) + 1)) ∧
    (dynmessage_get_fields m).length = m.field_count.toNat ∧
    (∀ i : Nat, i < m.field_count.toNat →
      ((dynmessage_get_fields m)[i]?).join.map (fun fd => fd.seq) =
        some ((i : Int) + 1)) := by
  obtain ⟨hcount, hfields, hnodup, hseq⟩ := reachable_msgInv m h
  have hn : m.field_count.toNat = m.fields_info.length := by
    omega
  have hget : ∀ f ∈ m.fields_info, dynmessage_get_field m f.name = f :=
    fun f hf =>
      get_field_of_mem m hnodup (fun g hg => (hfields g hg).1) f hf
  refine ⟨hnodup, ?_, ?_, ?_⟩
  · rw [hseq, hn]
    unfold seqListDesc
    rw [List.map_reverse]
    exact List.reverse_perm _
  · by_cases hpos : 0 < m.field_count
    · rw [get_fields_as_fold m hpos]
      have hff := (fold_fill m m.fields_info
        (List.replicate m.field_count.toNat none) hget hseq
        (by rw [List.length_replicate, hn])).1
      rw [hff, List.length_replicate]
    · unfold dynmessage_get_fields
      rw [if_neg hpos]
      simp only [List.length_nil]
      omega
  · intro i hi
    have hpos : 0 < m.field_count := by omega
    rw [get_fields_as_fold m hpos]
    obtain ⟨f, hfmem, hfseq, hfval⟩ := (fold_fill m m.fields_info
      (List.replicate m.field_count.toNat none) hget hseq
      (by rw [List.length_replicate, hn])).2.1 i (by omega)
    rw [hfval]
    simp [hfseq]

/-- Witness for C6 on a concrete reachable message with one field. -/
theorem claim_C6_field_list_ordering_witness :
    (msg_i32_example.fields_info.map (fun f => f.name)).Nodup ∧
    (msg_i32_example.fields_info.map (fun f => f.seq)).Perm
      ((List.range msg_i32_example.field_count.toNat).map
        (fun k : Nat => (k : Int) + 1)) ∧
    (dynmessage_get_fields msg_i32_example).length =
      msg_i32_example.field_count.toNat ∧
    ((dynmessage_get_fields msg_i32_example)[0]?).join.map (fun fd => fd.seq) =
      some 1 := by
  obtain ⟨h1, h2, h3, h4⟩ := claim_C6_field_list_ordering msg_i32_example
    (Reachable.put (dynmessage_init [109]) [102] INT32_TYPE
      (some (.int32_value 7)) (Reachable.init [109]))
  exact ⟨h1, h2, h3, h4 0 (by decide)⟩

/-! ### C9 — IEEE-754 round-trip over the exact model -/

/-- The divide-down loop exits at once below `2`. -/
theorem normDown_exit (f : ℚ) (s : ℤ) (h : f < 2) : normDown f s = (f, s) := by
  unfold normDown
  rw [dif_neg (by linarith)]

/-- The divide-down loop peels off exactly the binary exponent. -/
theorem normDown_spec (e : Nat) (f : ℚ) (s : ℤ) (h1 : 1 ≤ f) (h2 : f < 2) :
    normDown (f * 2 ^ e) s = (f, s + e) := by
  induction e generalizing s with
  | zero =>
    rw [pow_zero, mul_one, normDown_exit f s h2]
    norm_num
  | succ e ih =>
    have hpow : (2 : ℚ) ≤ 2 ^ (e + 1) := by
      calc (2 : ℚ) = 2 ^ 1 := (pow_one 2).symm
      _ ≤ 2 ^ (e + 1) := by
        apply pow_le_pow_right₀ (by norm_num)
        omega
    have hge : 2 ≤ f * 2 ^ (e + 1) := by nlinarith
    unfold normDown
    rw [dif_pos hge]
    have harg : f * 2 ^ (e + 1) / 2 = f * 2 ^ e := by
      field_simp
      ring
    rw [harg, ih (s + 1)]
    congr 1
    push_cast
    ring

/-- The multiply-up loop exits at once at or above `1`. -/
theorem normUp_exit (f : ℚ) (s : ℤ) (h : 1 ≤ f) : normUp f s = (f, s) := by
  unfold normUp
  rw [dif_neg (by linarith)]

/-- The multiply-up loop restores exactly the binary exponent. -/
theorem normUp_spec (e : Nat) (f : ℚ) (s : ℤ) (h1 : 1 ≤ f) (h2 : f < 2) :
    normUp (f / 2 ^ e) s = (f, s - e) := by
  induction e generalizing s with
  | zero =>
    rw [pow_zero, div_one, normUp_exit f s h1]
    norm_num
  | succ e ih =>
    have hpow : (2 : ℚ) ≤ 2 ^ (e + 1) := by
      calc (2 : ℚ) = 2 ^ 1 := (pow_one 2).symm
      _ ≤ 2 ^ (e + 1) := by
        apply pow_le_pow_right₀ (by norm_num)
        omega
    have hpos : 0 < f / 2 ^ (e + 1) := by positivity
    have hlt : f / 2 ^ (e + 1) < 1 := by
      rw [div_lt_one (by positivity)]
      linarith
    unfold normUp
    rw [dif_pos hlt, dif_pos hpos]
    have harg : f / 2 ^ (e + 1) * 2 = f / 2 ^ e := by
      field_simp
      ring
    rw [harg, ih (s - 1)]
    congr 1
    push_cast
    ring

/-- The two normalization loops of `pack754`, run in sequence on a value
`q * 2 ^ e` with `1 ≤ q < 2`, yield exactly `(q, e)`. -/
theorem norm_chain (q : ℚ) (e : ℤ) (h1 : 1 ≤ q) (h2 : q < 2) :
    normUp (normDown (q * 2 ^ e) 0).1 (normDown (q * 2 ^ e) 0).2 = (q, e) := by
  rcases le_or_lt 0 e with he | he
  · have h2e : (2 : ℚ) ^ e = 2 ^ e.toNat := by
      rw [← zpow_natCast]
      congr 1
      omega
    rw [h2e, normDown_spec e.toNat q 0 h1 h2]
    simp only
    rw [normUp_exit q _ h1]
    congr 1
    omega
  · have hn : (((-e).toNat : ℕ) : ℤ) = -e := by omega
    have h2e : q * (2 : ℚ) ^ e = q / 2 ^ (-e).toNat := by
      rw [div_eq_mul_inv, ← zpow_natCast (2 : ℚ) (-e).toNat, hn, zpow_neg,
        inv_inv]
    have hle1 : (2 : ℚ) ^ e ≤ 1 := by
      have h0 : (2 : ℚ) ^ e ≤ 2 ^ (0 : ℤ) := by
        apply zpow_le_zpow_right₀ (by norm_num)
        omega
      simpa using h0
    have hlt2 : q * (2 : ℚ) ^ e < 2 := by
      have hp : (0 : ℚ) < 2 ^ e := zpow_pos (by norm_num) e
      nlinarith
    rw [normDown_exit _ 0 hlt2]
    simp only
    rw [h2e, normUp_spec (-e).toNat q 0 h1 h2]
    congr 1
    omega

/-- One iteration of the multiply loop of `unpack754`. -/
theorem loopUp_step (r : ℚ) (s : ℤ) (h : 0 < s) :
    loopUp (r, s) = loopUp (r * 2, s - 1) := by
  conv_lhs => unfold loopUp
  rw [if_pos (show 0 < (r, s).2 from h)]

/-- The multiply loop exits at once on a nonpositive shift. -/
theorem loopUp_exit (r : ℚ) (s : ℤ) (h : s ≤ 0) : loopUp (r, s) = (r, s) := by
  unfold loopUp
  rw [if_neg (show ¬ 0 < (r, s).2 by simp only; omega)]

/-- The multiply loop of `unpack754` computes `r * 2 ^ n`. -/
theorem loopUp_spec (n : Nat) (r : ℚ) (s : ℤ) (hs : s = n) :
    loopUp (r, s) = (r * 2 ^ n, 0) := by
  induction n generalizing r s with
  | zero =>
    subst hs
    rw [loopUp_exit r _ (by norm_num)]
    norm_num
  | succ n ih =>
    subst hs
    rw [loopUp_step r _ (by push_cast; omega)]
    rw [show (((n + 1 : ℕ) : ℤ) - 1) = ((n : ℕ) : ℤ) by push_cast; ring]
    rw [ih (r * 2) _ rfl]
    congr 1
    ring

/-- One iteration of the divide loop of `unpack754`. -/
theorem loopDown_step (r : ℚ) (s : ℤ) (h : s < 0) :
    loopDown (r, s) = loopDown (r / 2, s + 1) := by
  conv_lhs => unfold loopDown
  rw [if_pos (show (r, s).2 < 0 from h)]

/-- The divide loop exits at once on a nonnegative shift. -/
theorem loopDown_exit (r : ℚ) (s : ℤ) (h : 0 ≤ s) :
    loopDown (r, s) = (r, s) := by
  unfold loopDown
  rw [if_neg (show ¬ (r, s).2 < 0 by simp only; omega)]

/-- The divide loop of `unpack754` computes `r / 2 ^ n`. -/
theorem loopDown_spec (n : Nat) (r : ℚ) (s : ℤ) (hs : s = -(n : ℤ)) :
    loopDown (r, s) = (r / 2 ^ n, 0) := by
  induction n generalizing r s with
  | zero =>
    subst hs
    rw [loopDown_exit r _ (by norm_num)]
    norm_num
  | succ n ih =>
    subst hs
    rw [loopDown_step r _ (by push_cast; omega)]
    rw [show (-((n + 1 : ℕ) : ℤ) + 1) = -((n : ℕ) : ℤ) by push_cast; ring]
    rw [ih (r / 2) _ rfl]
    congr 1
    rw [div_div]
    congr 1
    ring

/-- Truncating the significand product recovers the mantissa exactly. -/
theorem floor_mant (mant v w : Nat) (hvw : v < w) (hm : mant < 2 ^ v) :
    (⌊(mant : ℚ) + (mant : ℚ) / 2 ^ w⌋ : ℤ) = mant := by
  have hc : (mant : ℚ) < 2 ^ v := by exact_mod_cast hm
  have hpow : (2 : ℚ) ^ v ≤ 2 ^ w := by
    apply pow_le_pow_right₀ (by norm_num)
    omega
  rw [Int.floor_eq_iff]
  constructor
  · push_cast
    nlinarith [show (0 : ℚ) ≤ (mant : ℚ) / 2 ^ w by positivity]
  · push_cast
    have hlt : (mant : ℚ) / 2 ^ w < 1 := by
      rw [div_lt_one (by positivity)]
      nlinarith
    nlinarith

/-- Evaluation of `pack754` on a normal binary32 value: the result is the
IEEE-754 bit pattern (sign bit, biased exponent, mantissa). -/
theorem pack754_eval_32 (sgn : Bool) (mant : Nat) (e : ℤ)
    (hm : mant < 2 ^ 23) (he1 : -126 ≤ e) (he2 : e ≤ 127) :
    pack754 ((if sgn then (-1 : ℚ) else 1) *
        ((1 + (mant : ℚ) / 2 ^ 23) * 2 ^ e)) 32 8 =
      (if sgn then 1 else 0) * 2 ^ 31 + (e + 127).toNat * 2 ^ 23 + mant := by
  have hq0 : (0 : ℚ) ≤ (mant : ℚ) / 2 ^ 23 := by positivity
  have hc : (mant : ℚ) < 2 ^ 23 := by exact_mod_cast hm
  have hq1 : (1 : ℚ) ≤ 1 + (mant : ℚ) / 2 ^ 23 := by linarith
  have hq2 : (1 + (mant : ℚ) / 2 ^ 23) < 2 := by
    have : (mant : ℚ) / 2 ^ 23 < 1 := by
      rw [div_lt_one (by norm_num)]
      exact hc
    linarith
  have hqpos : (0 : ℚ) < (1 + (mant : ℚ) / 2 ^ 23) * 2 ^ e :=
    mul_pos (by linarith) (zpow_pos (by norm_num) e)
  have hsig : ((1 + (mant : ℚ) / 2 ^ 23) - 1) * ((2 : ℚ) ^ 23 + 1 / 2) =
      (mant : ℚ) + (mant : ℚ) / 2 ^ 24 := by
    field_simp
    ring
  have hEbound : (e + 127).toNat ≤ 254 := by omega
  cases sgn with
  | false =>
    rw [show ((if false = true then (-1 : ℚ) else 1) *
        ((1 + (mant : ℚ) / 2 ^ 23) * 2 ^ e)) =
        (1 + (mant : ℚ) / 2 ^ 23) * 2 ^ e by norm_num]
    unfold pack754
    rw [if_neg (ne_of_gt hqpos)]
    simp only [if_neg (not_lt.mpr (le_of_lt hqpos))]
    simp only [norm_chain _ e hq1 hq2]
    rw [show (32 - 8 - 1 : ℕ) = 23 from rfl]
    rw [show (32 - 1 : ℕ) = 31 from rfl]
    rw [show ((2 : ℤ) ^ (8 - 1) - 1) = 127 from rfl]
    rw [hsig, floor_mant mant 23 24 (by omega) hm]
    rw [show ((mant : ℤ)).toNat = mant from Int.toNat_natCast mant]
    rw [Nat.lor_assoc]
    rw [shiftLeft_lor_eq_add _ mant 23 hm]
    rw [show (0 : Nat) <<< 31 = 0 from rfl]
    rw [Nat.zero_or]
    norm_num
  | true =>
    rw [show ((if true = true then (-1 : ℚ) else 1) *
        ((1 + (mant : ℚ) / 2 ^ 23) * 2 ^ e)) =
        (-1 : ℚ) * ((1 + (mant : ℚ) / 2 ^ 23) * 2 ^ e) by norm_num]
    unfold pack754
    rw [if_neg (show ¬ ((-1 : ℚ) * ((1 + (mant : ℚ) / 2 ^ 23) * 2 ^ e) = 0) by
      intro hzero
      nlinarith)]
    simp only [if_pos
      (show (-1 : ℚ) * ((1 + (mant : ℚ) / 2 ^ 23) * 2 ^ e) < 0 by nlinarith)]
    rw [show -((-1 : ℚ) * ((1 + (mant : ℚ) / 2 ^ 23) * 2 ^ e)) =
        (1 + (mant : ℚ) / 2 ^ 23) * 2 ^ e by ring]
    simp only [norm_chain _ e hq1 hq2]
    rw [show (32 - 8 - 1 : ℕ) = 23 from rfl]
    rw [show (32 - 1 : ℕ) = 31 from rfl]
    rw [show ((2 : ℤ) ^ (8 - 1) - 1) = 127 from rfl]
    rw [hsig, floor_mant mant 23 24 (by omega) hm]
    rw [show ((mant : ℤ)).toNat = mant from Int.toNat_natCast mant]
    rw [Nat.lor_assoc]
    rw [shiftLeft_lor_eq_add _ mant 23 hm]
    rw [shiftLeft_lor_eq_add 1 _ 31 (by nlinarith [hm, hEbound])]
    norm_num
    omega

/-- Evaluation of `unpack754` on a normal binary32 bit pattern: the value
`(-1)^sign * (1 + mant/2^23) * 2^(E-127)` is reconstructed exactly. -/
theorem unpack754_eval_32 (s' E mant : Nat)
    (hs : s' ≤ 1) (hE1 : 1 ≤ E) (hE2 : E ≤ 254) (hm : mant < 2 ^ 23) :
    unpack754 (s' * 2 ^ 31 + E * 2 ^ 23 + mant) 32 8 =
      (if s' = 1 then (-1 : ℚ) else 1) *
        ((1 + (mant : ℚ) / 2 ^ 23) * 2 ^ ((E : ℤ) - 127)) := by
  have hNne : s' * 2 ^ 31 + E * 2 ^ 23 + mant ≠ 0 := by
    intro h0
    omega
  unfold unpack754
  rw [if_neg hNne]
  rw [show (32 - 8 - 1 : ℕ) = 23 from rfl]
  rw [show (32 - 1 : ℕ) = 31 from rfl]
  rw [Nat.and_pow_two_sub_one_eq_mod]
  have hmod : (s' * 2 ^ 31 + E * 2 ^ 23 + mant) % 2 ^ 23 = mant := by
    omega
  rw [hmod]
  have hexpfield :
      (s' * 2 ^ 31 + E * 2 ^ 23 + mant) >>> 23 &&& (2 ^ 8 - 1) = E := by
    rw [Nat.shiftRight_eq_div_pow, Nat.and_pow_two_sub_one_eq_mod]
    have hdiv : (s' * 2 ^ 31 + E * 2 ^ 23 + mant) / 2 ^ 23 = s' * 2 ^ 8 + E := by
      omega
    rw [hdiv]
    omega
  rw [hexpfield]
  have hsign : (s' * 2 ^ 31 + E * 2 ^ 23 + mant) >>> 31 &&& 1 = s' := by
    rw [Nat.shiftRight_eq_div_pow]
    have hdiv : (s' * 2 ^ 31 + E * 2 ^ 23 + mant) / 2 ^ 31 = s' := by
      omega
    rw [hdiv]
    interval_cases s' <;> decide
  rw [hsign]
  rw [show ((2 : ℤ) ^ (8 - 1) - 1) = 127 from rfl]
  have hr0 : ((mant : ℚ)) / (((2 ^ 23 : Nat) : ℚ)) + 1 =
      1 + (mant : ℚ) / 2 ^ 23 := by
    push_cast
    ring
  rcases le_or_lt (127 : ℤ) (E : ℤ) with he | he
  · simp only [loopUp_spec ((E : ℤ) - 127).toNat
      ((mant : ℚ) / ((2 ^ 23 : Nat) : ℚ) + 1) ((E : ℤ) - 127) (by omega)]
    simp only [loopDown_exit
      (((mant : ℚ) / ((2 ^ 23 : Nat) : ℚ) + 1) * 2 ^ ((E : ℤ) - 127).toNat) 0
      (le_refl 0)]
    have h2n : ((2 : ℚ) ^ (((E : ℤ) - 127).toNat)) = 2 ^ ((E : ℤ) - 127) := by
      rw [← zpow_natCast]
      congr 1
      omega
    rw [hr0, h2n]
    ring
  · simp only [loopUp_exit ((mant : ℚ) / ((2 ^ 23 : Nat) : ℚ) + 1)
      ((E : ℤ) - 127) (by omega)]
    simp only [loopDown_spec (127 - (E : ℤ)).toNat
      ((mant : ℚ) / ((2 ^ 23 : Nat) : ℚ) + 1) ((E : ℤ) - 127) (by omega)]
    have h2n : ((2 : ℚ) ^ ((E : ℤ) - 127)) =
        ((2 : ℚ) ^ ((127 - (E : ℤ)).toNat))⁻¹ := by
      rw [← zpow_natCast]
      rw [show (((127 - (E : ℤ)).toNat : ℕ) : ℤ) = 127 - (E : ℤ) by omega]
      rw [show ((E : ℤ) - 127) = -(127 - (E : ℤ)) by ring]
      rw [zpow_neg]
    rw [hr0, h2n]
    rw [div_eq_mul_inv]
    ring

/-- Evaluation of `pack754` on a normal binary64 value. -/
theorem pack754_eval_64 (sgn : Bool) (mant : Nat) (e : ℤ)
    (hm : mant < 2 ^ 52) (he1 : -1022 ≤ e) (he2 : e ≤ 1023) :
    pack754 ((if sgn then (-1 : ℚ) else 1) *
        ((1 + (mant : ℚ) / 2 ^ 52) * 2 ^ e)) 64 11 =
      (if sgn then 1 else 0) * 2 ^ 63 + (e + 1023).toNat * 2 ^ 52 + mant := by
  have hq0 : (0 : ℚ) ≤ (mant : ℚ) / 2 ^ 52 := by positivity
  have hc : (mant : ℚ) < 2 ^ 52 := by exact_mod_cast hm
  have hq1 : (1 : ℚ) ≤ 1 + (mant : ℚ) / 2 ^ 52 := by linarith
  have hq2 : (1 + (mant : ℚ) / 2 ^ 52) < 2 := by
    have : (mant : ℚ) / 2 ^ 52 < 1 := by
      rw [div_lt_one (by norm_num)]
      exact hc
    linarith
  have hqpos : (0 : ℚ) < (1 + (mant : ℚ) / 2 ^ 52) * 2 ^ e :=
    mul_pos (by linarith) (zpow_pos (by norm_num) e)
  have hsig : ((1 + (mant : ℚ) / 2 ^ 52) - 1) * ((2 : ℚ) ^ 52 + 1 / 2) =
      (mant : ℚ) + (mant : ℚ) / 2 ^ 53 := by
    field_simp
    ring
  have hEbound : (e + 1023).toNat ≤ 2046 := by omega
  cases sgn with
  | false =>
    rw [show ((if false = true then (-1 : ℚ) else 1) *
        ((1 + (mant : ℚ) / 2 ^ 52) * 2 ^ e)) =
        (1 + (mant : ℚ) / 2 ^ 52) * 2 ^ e by norm_num]
    unfold pack754
    rw [if_neg (ne_of_gt hqpos)]
    simp only [if_neg (not_lt.mpr (le_of_lt hqpos))]
    simp only [norm_chain _ e hq1 hq2]
    rw [show (64 - 11 - 1 : ℕ) = 52 from rfl]
    rw [show (64 - 1 : ℕ) = 63 from rfl]
    rw [show ((2 : ℤ) ^ (11 - 1) - 1) = 1023 from rfl]
    rw [hsig, floor_mant mant 52 53 (by omega) hm]
    rw [show ((mant : ℤ)).toNat = mant from Int.toNat_natCast mant]
    rw [Nat.lor_assoc]
    rw [shiftLeft_lor_eq_add _ mant 52 hm]
    rw [show (0 : Nat) <<< 63 = 0 from rfl]
    rw [Nat.zero_or]
    norm_num
  | true =>
    rw [show ((if true = true then (-1 : ℚ) else 1) *
        ((1 + (mant : ℚ) / 2 ^ 52) * 2 ^ e)) =
        (-1 : ℚ) * ((1 + (mant : ℚ) / 2 ^ 52) * 2 ^ e) by norm_num]
    unfold pack754
    rw [if_neg (show ¬ ((-1 : ℚ) * ((1 + (mant : ℚ) / 2 ^ 52) * 2 ^ e) = 0) by
      intro hzero
      nlinarith)]
    simp only [if_pos
      (show (-1 : ℚ) * ((1 + (mant : ℚ) / 2 ^ 52) * 2 ^ e) < 0 by nlinarith)]
    rw [show -((-1 : ℚ) * ((1 + (mant : ℚ) / 2 ^ 52) * 2 ^ e)) =
        (1 + (mant : ℚ) / 2 ^ 52) * 2 ^ e by ring]
    simp only [norm_chain _ e hq1 hq2]
    rw [show (64 - 11 - 1 : ℕ) = 52 from rfl]
    rw [show (64 - 1 : ℕ) = 63 from rfl]
    rw [show ((2 : ℤ) ^ (11 - 1) - 1) = 1023 from rfl]
    rw [hsig, floor_mant mant 52 53 (by omega) hm]
    rw [show ((mant : ℤ)).toNat = mant from Int.toNat_natCast mant]
    rw [Nat.lor_assoc]
    rw [shiftLeft_lor_eq_add _ mant 52 hm]
    rw [shiftLeft_lor_eq_add 1 _ 63 (by nlinarith [hm, hEbound])]
    norm_num
    omega

/-- Evaluation of `unpack754` on a normal binary64 bit pattern. -/
theorem unpack754_eval_64 (s' E mant : Nat)
    (hs : s' ≤ 1) (hE1 : 1 ≤ E) (hE2 : E ≤ 2046) (hm : mant < 2 ^ 52) :
    unpack754 (s' * 2 ^ 63 + E * 2 ^ 52 + mant) 64 11 =
      (if s' = 1 then (-1 : ℚ) else 1) *
        ((1 + (mant : ℚ) / 2 ^ 52) * 2 ^ ((E : ℤ) - 1023)) := by
  have hNne : s' * 2 ^ 63 + E * 2 ^ 52 + mant ≠ 0 := by
    intro h0
    omega
  unfold unpack754
  rw [if_neg hNne]
  rw [show (64 - 11 - 1 : ℕ) = 52 from rfl]
  rw [show (64 - 1 : ℕ) = 63 from rfl]
  rw [Nat.and_pow_two_sub_one_eq_mod]
  have hmod : (s' * 2 ^ 63 + E * 2 ^ 52 + mant) % 2 ^ 52 = mant := by
    omega
  rw [hmod]
  have hexpfield :
      (s' * 2 ^ 63 + E * 2 ^ 52 + mant) >>> 52 &&& (2 ^ 11 - 1) = E := by
    rw [Nat.shiftRight_eq_div_pow, Nat.and_pow_two_sub_one_eq_mod]
    have hdiv : (s' * 2 ^ 63 + E * 2 ^ 52 + mant) / 2 ^ 52 =
        s' * 2 ^ 11 + E := by
      omega
    rw [hdiv]
    omega
  rw [hexpfield]
  have hsign : (s' * 2 ^ 63 + E * 2 ^ 52 + mant) >>> 63 &&& 1 = s' := by
    rw [Nat.shiftRight_eq_div_pow]
    have hdiv : (s' * 2 ^ 63 + E * 2 ^ 52 + mant) / 2 ^ 63 = s' := by
      omega
    rw [hdiv]
    interval_cases s' <;> decide
  rw [hsign]
  rw [show ((2 : ℤ) ^ (11 - 1) - 1) = 1023 from rfl]
  have hr0 : ((mant : ℚ)) / (((2 ^ 52 : Nat) : ℚ)) + 1 =
      1 + (mant : ℚ) / 2 ^ 52 := by
    push_cast
    ring
  rcases le_or_lt (1023 : ℤ) (E : ℤ) with he | he
  · simp only [loopUp_spec ((E : ℤ) - 1023).toNat
      ((mant : ℚ) / ((2 ^ 52 : Nat) : ℚ) + 1) ((E : ℤ) - 1023) (by omega)]
    simp only [loopDown_exit
      (((mant : ℚ) / ((2 ^ 52 : Nat) : ℚ) + 1) * 2 ^ ((E : ℤ) - 1023).toNat) 0
      (le_refl 0)]
    have h2n : ((2 : ℚ) ^ (((E : ℤ) - 1023).toNat)) = 2 ^ ((E : ℤ) - 1023) := by
      rw [← zpow_natCast]
      congr 1
      omega
    rw [hr0, h2n]
    ring
  · simp only [loopUp_exit ((mant : ℚ) / ((2 ^ 52 : Nat) : ℚ) + 1)
      ((E : ℤ) - 1023) (by omega)]
    simp only [loopDown_spec (1023 - (E : ℤ)).toNat
      ((mant : ℚ) / ((2 ^ 52 : Nat) : ℚ) + 1) ((E : ℤ) - 1023) (by omega)]
    have h2n : ((2 : ℚ) ^ ((E : ℤ) - 1023)) =
        ((2 : ℚ) ^ ((1023 - (E : ℤ)).toNat))⁻¹ := by
      rw [← zpow_natCast]
      rw [show (((1023 - (E : ℤ)).toNat : ℕ) : ℤ) = 1023 - (E : ℤ) by omega]
      rw [show ((E : ℤ) - 1023) = -(1023 - (E : ℤ)) by ring]
      rw [zpow_neg]
    rw [hr0, h2n]
    rw [div_eq_mul_inv]
    ring

/-- C9: over the exact-arithmetic model of the `long double` computation,
zero maps to the all-zero bit pattern (and back), and every normal binary32
or binary64 value — sign, mantissa below `2^significand_bits`, exponent in
the normal range — round-trips through `pack754`/`unpack754` exactly, which
is stronger than the claimed one-ulp bound; dyadic values such as `1.25`
and `2.375` are instances (see the witness). -/
theorem claim_C9_float_roundtrip :
    pack754 0 32 8 = 0 ∧ unpack754 0 32 8 = 0 ∧
    pack754 0 64 11 = 0 ∧ unpack754 0 64 11 = 0 ∧
    (∀ (sgn : Bool) (mant : Nat) (e : ℤ),
      mant < 2 ^ 23 → -126 ≤ e → e ≤ 127 →
      unpack754 (pack754 ((if sgn then (-1 : ℚ) else 1) *
          ((1 + (mant : ℚ) / 2 ^ 23) * 2 ^ e)) 32 8) 32 8 =
        (if sgn then (-1 : ℚ) else 1) *
          ((1 + (mant : ℚ) / 2 ^ 23) * 2 ^ e)) ∧
    (∀ (sgn : Bool) (mant : Nat) (e : ℤ),
      mant < 2 ^ 52 → -1022 ≤ e → e ≤ 1023 →
      unpack754 (pack754 ((if sgn then (-1 : ℚ) else 1) *
          ((1 + (mant : ℚ) / 2 ^ 52) * 2 ^ e)) 64 11) 64 11 =
        (if sgn then (-1 : ℚ) else 1) *
          ((1 + (mant : ℚ) / 2 ^ 52) * 2 ^ e)) := by
  refine ⟨by decide, by decide, by decide, by decide, ?_, ?_⟩
  · intro sgn mant e hm he1 he2
    rw [pack754_eval_32 sgn mant e hm he1 he2]
    rw [unpack754_eval_32 (if sgn then 1 else 0) (e + 127).toNat mant
      (by cases sgn <;> simp) (by omega) (by omega) hm]
    rw [show (((e + 127).toNat : ℤ) - 127) = e by omega]
    cases sgn <;> norm_num
  · intro sgn mant e hm he1 he2
    rw [pack754_eval_64 sgn mant e hm he1 he2]
    rw [unpack754_eval_64 (if sgn then 1 else 0) (e + 1023).toNat mant
      (by cases sgn <;> simp) (by omega) (by omega) hm]
    rw [show (((e + 1023).toNat : ℤ) - 1023) = e by omega]
    cases sgn <;> norm_num

/-- Witness for C9 at the dyadic scenario values `1.25` (binary32) and
`2.375` (binary64). -/
theorem claim_C9_float_roundtrip_witness :
    unpack754 (pack754 (5 / 4 : ℚ) 32 8) 32 8 = 5 / 4 ∧
    unpack754 (pack754 (19 / 8 : ℚ) 64 11) 64 11 = 19 / 8 := by
  constructor
  · have h := claim_C9_float_roundtrip.2.2.2.2.1 false (2 ^ 21) 0
      (by norm_num) (by norm_num) (by norm_num)
    rw [show ((if false then (-1 : ℚ) else 1) *
        ((1 + ((2 ^ 21 : ℕ) : ℚ) / 2 ^ 23) * 2 ^ (0 : ℤ))) = 5 / 4 by
      norm_num] at h
    exact h
  · have h := claim_C9_float_roundtrip.2.2.2.2.2 false (3 * 2 ^ 48) 1
      (by norm_num) (by norm_num) (by norm_num)
    rw [show ((if false then (-1 : ℚ) else 1) *
        ((1 + ((3 * 2 ^ 48 : ℕ) : ℚ) / 2 ^ 52) * 2 ^ (1 : ℤ))) = 19 / 8 by
      norm_num] at h
    exact h
